import Mathlib

/-!
The chain invocation protocol, the MRKL zero-shot agent, the callback manager and the
OpenAI model client of langchaingo.

A shallow embedding of `chains/chains.go`, `agents/mrkl/mrkl.go`, `callbacks/manager.go`
and `llms/openai/openaillm.go`.

Modelling conventions
* A Go `string` is a list of Unicode code points (`Str`); only valid UTF-8 text is modelled.
  The separators searched for are ASCII, so searching by code point and by byte agree.
* A Go `map[string]any` is a finite association list with unique keys (`GoMap`).
  A `for k, v := range m` loop visits the entries in list order; the loops of this
  program only copy entries into another map, so the visiting order is not observable.
* A Go `error` is a tree built by `errors.New` and `fmt.Errorf` with `%w` verbs (`GoError`).
* The interface methods `Chain.Call`, `Memory.LoadMemoryVariables` and `Memory.SaveContext`
  are arbitrary state transformers over a world state `σ`; every invocation made by the
  protocol is appended to a trace so that "is invoked" and "is never invoked" can be stated.
* `context.Context` arguments carry no data used by the modelled code and are omitted.
-/

namespace LangChainGo

/-! ## Definitions -/

/-- Go strings, as lists of code points. -/
abbrev Str := List Char

/-- Values of Go type `any` that the modelled code distinguishes: strings and non-strings. -/
inductive Value where
  | str (s : Str)
  | int (n : Int)
  | bool (b : Bool)
  | null
  deriving DecidableEq, Repr

/-- Go `map[string]any`. -/
abbrev GoMap := AList (fun _ : Str => Value)

/-- The loop `for key, value := range src { dst[key] = value }`. -/
def rangeInsert (src dst : GoMap) : GoMap :=
  src.entries.foldl (fun m e => m.insert e.1 e.2) dst

/-- Go `error` values: `errors.New(text)`, and `fmt.Errorf` results wrapping one or two
errors through `%w`; `text` is the formatted message. -/
inductive GoError where
  | new (text : Str)
  | wrap1 (text : Str) (e : GoError)
  | wrap2 (text : Str) (e1 e2 : GoError)
  deriving DecidableEq, Repr

/-- The method `Error()`. -/
def GoError.Error : GoError → Str
  | .new text => text
  | .wrap1 text _ => text
  | .wrap2 text _ _ => text

/-- The function `errors.Is(err, target)`: `err` is `target` or wraps it. -/
def GoError.Is : GoError → GoError → Bool
  | .new text, target => decide (GoError.new text = target)
  | .wrap1 text e, target => decide (GoError.wrap1 text e = target) || e.Is target
  | .wrap2 text e1 e2, target =>
      decide (GoError.wrap2 text e1 e2 = target) || e1.Is target || e2.Is target

/-- The sentinel errors of `chains/errors.go`. That file is not part of the given sources,
so the six values are taken as a parameter of the functions that return them. -/
structure ChainsErrors where
  ErrInvalidInputValues : GoError
  ErrInvalidOutputValues : GoError
  ErrMissingInputValues : GoError
  ErrMultipleInputsInRun : GoError
  ErrMultipleOutputsInRun : GoError
  ErrWrongOutputTypeInRun : GoError

/-- A callback handler, known to the chain protocol only by its identity. -/
structure CallbackHandler where
  id : Nat
  deriving DecidableEq, Repr

/-- Go `callbacks.CallbackList`. -/
abbrev CallbackList := List CallbackHandler

/-- Go `chains.ChainCallOptions`. -/
structure ChainCallOptions where
  StopWords : List Str
  Callbacks : CallbackList

/-- Go `chains.ChainCallOption`, a function that modifies the options. -/
abbrev ChainCallOption := ChainCallOptions → ChainCallOptions

/-- Go `chains.WithStopWords`. -/
def WithStopWords (stopWords : List Str) : ChainCallOption :=
  fun options => { options with StopWords := stopWords }

/-- Go `chains.WithCallbacks`. -/
def WithCallbacks (handlers : CallbackList) : ChainCallOption :=
  fun options => { options with Callbacks := handlers }

/-- Go `schema.Memory`, restricted to the two methods the protocol uses. -/
structure Memory (σ : Type) where
  LoadMemoryVariables : GoMap → σ → Except GoError GoMap × σ
  SaveContext : GoMap → GoMap → σ → Option GoError × σ

/-- Go `chains.Chain`. -/
structure Chain (σ : Type) where
  Call : GoMap → List ChainCallOption → σ → Except GoError GoMap × σ
  GetMemory : Memory σ
  GetInputKeys : List Str
  GetOutputKeys : List Str

/-- One invocation of an interface method made by `chains.Call`, with its arguments. -/
inductive Event where
  | LoadMemoryVariables (inputs : GoMap)
  | ChainCall (inputs : GoMap) (options : List ChainCallOption)
  | SaveContext (inputs outputs : GoMap)

/-- The state of the chain and its memory, with the invocations made so far. -/
structure World (σ : Type) where
  state : σ
  trace : List Event

/-- The call `c.GetMemory().LoadMemoryVariables(inputs)`, recorded in the trace. -/
def Chain.invokeLoad {σ : Type} (c : Chain σ) (inputs : GoMap) (w : World σ) :
    Except GoError GoMap × World σ :=
  let r := c.GetMemory.LoadMemoryVariables inputs w.state
  (r.1, ⟨r.2, w.trace ++ [Event.LoadMemoryVariables inputs]⟩)

/-- The call `c.Call(ctx, inputs, options...)`, recorded in the trace. -/
def Chain.invokeCall {σ : Type} (c : Chain σ) (inputs : GoMap) (options : List ChainCallOption)
    (w : World σ) : Except GoError GoMap × World σ :=
  let r := c.Call inputs options w.state
  (r.1, ⟨r.2, w.trace ++ [Event.ChainCall inputs options]⟩)

/-- The call `c.GetMemory().SaveContext(inputs, outputs)`, recorded in the trace. -/
def Chain.invokeSave {σ : Type} (c : Chain σ) (inputs outputs : GoMap) (w : World σ) :
    Option GoError × World σ :=
  let r := c.GetMemory.SaveContext inputs outputs w.state
  (r.1, ⟨r.2, w.trace ++ [Event.SaveContext inputs outputs]⟩)

/-- The separator `": "` of the error formats. -/
def colonSpace : Str := ": ".toList

/-- The loop of `validateInputs` and `validateOutputs`: the first key of `keys` that is
absent from `values`, if any. -/
def firstMissing (values : GoMap) : List Str → Option Str
  | [] => none
  | k :: ks => if (values.lookup k).isSome then firstMissing values ks else some k

/-- Go `validateInputs`; `none` is the nil error. -/
def validateInputs {σ : Type} (E : ChainsErrors) (c : Chain σ) (inputValues : GoMap) :
    Option GoError :=
  match firstMissing inputValues c.GetInputKeys with
  | some k =>
      some (GoError.wrap2
        (E.ErrInvalidInputValues.Error ++ colonSpace ++ E.ErrMissingInputValues.Error
          ++ colonSpace ++ k)
        E.ErrInvalidInputValues E.ErrMissingInputValues)
  | none => none

/-- Go `validateOutputs`; `none` is the nil error. -/
def validateOutputs {σ : Type} (E : ChainsErrors) (c : Chain σ) (outputValues : GoMap) :
    Option GoError :=
  match firstMissing outputValues c.GetOutputKeys with
  | some k =>
      some (GoError.wrap1 (E.ErrInvalidOutputValues.Error ++ colonSpace ++ k)
        E.ErrInvalidOutputValues)
  | none => none

/-- Go `chains.Call`. An `Except.error` result is the Go result `(nil, err)`. -/
def Call {σ : Type} (E : ChainsErrors) (c : Chain σ) (inputValues : GoMap)
    (options : List ChainCallOption) (w : World σ) : Except GoError GoMap × World σ :=
  match validateInputs E c inputValues with
  | some err => (Except.error err, w)
  | none =>
    let fullValues := rangeInsert inputValues ∅
    match c.invokeLoad inputValues w with
    | (Except.error err, w1) => (Except.error err, w1)
    | (Except.ok newValues, w1) =>
      let fullValues := rangeInsert newValues fullValues
      match c.invokeCall fullValues options w1 with
      | (Except.error err, w2) => (Except.error err, w2)
      | (Except.ok outputValues, w2) =>
        match validateOutputs E c outputValues with
        | some err => (Except.error err, w2)
        | none =>
          match c.invokeSave inputValues outputValues w2 with
          | (some err, w3) => (Except.error err, w3)
          | (none, w3) => (Except.ok outputValues, w3)

/-! ### The Go standard library functions used by the agent -/

/-- Go `unicode.IsSpace`: the code points with the Unicode White_Space property. -/
def unicodeIsSpace (c : Char) : Bool :=
  let n := c.toNat
  n == 0x09 || n == 0x0A || n == 0x0B || n == 0x0C || n == 0x0D || n == 0x20
    || n == 0x85 || n == 0xA0 || n == 0x1680 || (0x2000 ≤ n && n ≤ 0x200A)
    || n == 0x2028 || n == 0x2029 || n == 0x202F || n == 0x205F || n == 0x3000

/-- Go `strings.TrimSpace`: `TrimRightFunc(TrimLeftFunc(s, unicode.IsSpace), unicode.IsSpace)`. -/
def TrimSpace (s : Str) : Str :=
  List.rdropWhile unicodeIsSpace (List.dropWhile unicodeIsSpace s)

/-- Go `strings.Index(s, substr)`: the position of the first occurrence of `substr` in `s`;
`none` stands for `-1`. -/
def Index (substr : Str) : Str → Option Nat
  | [] => if substr.isPrefixOf [] then some 0 else none
  | c :: cs => if substr.isPrefixOf (c :: cs) then some 0 else (Index substr cs).map (· + 1)

/-- Go `strings.Contains(s, substr)`, which is `Index(s, substr) >= 0`. -/
def Contains (s substr : Str) : Bool :=
  (Index substr s).isSome

/-- The loop of Go `strings.Count` for a non-empty `substr`: count an occurrence, cut the
string behind it, repeat. Every round removes at least one code point, so `fuel` larger
than the length of `s` lets the loop run to its end. -/
def countLoop (substr : Str) : Nat → Str → Nat
  | 0, _ => 0
  | fuel + 1, s =>
    match Index substr s with
    | none => 0
    | some i => 1 + countLoop substr fuel (s.drop (i + substr.length))

/-- Go `strings.Count(s, substr)`: the number of non-overlapping occurrences. For a
one-byte `substr` Go counts the byte directly, which gives the same number as the loop. -/
def Count (s substr : Str) : Nat :=
  if substr = [] then s.length + 1 else countLoop substr (s.length + 1) s

/-- The loop `for i < n` of Go `strings.genSplit` with `sepSave = 0`; the first argument
counts the rounds that are left. -/
def splitLoop (sep : Str) : Nat → Str → List Str
  | 0, s => [s]
  | rounds + 1, s =>
    match Index sep s with
    | none => [s]
    | some m => s.take m :: splitLoop sep rounds (s.drop (m + sep.length))

/-- Go `strings.Split(s, sep)`, which is `genSplit(s, sep, 0, -1)`. -/
def Split (s sep : Str) : List Str :=
  if sep = [] then s.map (fun c => [c])
  else
    let n := Count s sep + 1
    let n := if n > s.length + 1 then s.length + 1 else n
    splitLoop sep (n - 1) s

/-- One item of a regular expression that is a sequence of literal texts, greedy
repetitions `cls*` of a character class, and capture groups `(cls+)`. -/
inductive ReItem where
  | lit (text : Str)
  | star (cls : Char → Bool)
  | groupPlus (cls : Char → Bool)

/-- Match a literal text at the start of the input; the result is the input behind it. -/
def stripLit (text inp : Str) : Option Str :=
  if text.isPrefixOf inp then some (inp.drop text.length) else none

/-- Greedy `cls*` followed by the continuation `k`, in the order of a backtracking search:
first take one more code point, and only if the rest then fails, stop here.
`acc` is the text taken so far. -/
def starGreedy {β : Type} (cls : Char → Bool) (k : Str → Str → Option β) : Str → Str → Option β
  | acc, [] => k acc []
  | acc, c :: cs =>
    if cls c then
      match starGreedy cls k (acc ++ [c]) cs with
      | some r => some r
      | none => k acc (c :: cs)
    else k acc (c :: cs)

/-- Greedy `cls+` followed by the continuation `k`. -/
def plusGreedy {β : Type} (cls : Char → Bool) (k : Str → Str → Option β) : Str → Option β
  | [] => none
  | c :: cs => if cls c then starGreedy cls k [c] cs else none

/-- Match the items in sequence at the start of the input, preferring the first match a
backtracking search finds (leftmost-first semantics of Go `regexp`). The result is the
texts of the capture groups, in order, and the input behind the match. -/
def matchItems : List ReItem → List Str → Str → Option (List Str × Str)
  | [], groups, inp => some (groups, inp)
  | ReItem.lit text :: rest, groups, inp =>
    match stripLit text inp with
    | some inp1 => matchItems rest groups inp1
    | none => none
  | ReItem.star cls :: rest, groups, inp =>
    starGreedy cls (fun _ inp1 => matchItems rest groups inp1) [] inp
  | ReItem.groupPlus cls :: rest, groups, inp =>
    plusGreedy cls (fun g inp1 => matchItems rest (groups ++ [g]) inp1) inp

/-- Go `(*Regexp).FindStringSubmatch`: the leftmost match; the result holds the text of
the whole match followed by the texts of the groups. `none` is the nil slice. -/
def FindStringSubmatch (re : List ReItem) : Str → Option (List Str)
  | [] =>
    match matchItems re [] [] with
    | some (groups, _) => some ([] :: groups)
    | none => none
  | c :: cs =>
    match matchItems re [] (c :: cs) with
    | some (groups, rest) =>
      some ((c :: cs).take ((c :: cs).length - rest.length) :: groups)
    | none => FindStringSubmatch re cs

/-- The class `\s` of Go `regexp/syntax`: `[\t\n\f\r ]`. -/
def reSpace (c : Char) : Bool :=
  c == '\t' || c == '\n' || c == '\x0c' || c == '\r' || c == ' '

/-- The class `.` of Go `regexp/syntax` without the `s` flag: any code point but `\n`. -/
def reDot (c : Char) : Bool :=
  c != '\n'

/-! ### `agents/mrkl/mrkl.go` -/

/-- Modelled from the spec: `schema.AgentAction`, declared outside the given sources, with
the three fields `mrkl.go` fills in. -/
structure AgentAction where
  Tool : Str
  ToolInput : Str
  Log : Str
  deriving DecidableEq, Repr

/-- Modelled from the spec: `schema.AgentStep`, declared outside the given sources. -/
structure AgentStep where
  Action : AgentAction
  Observation : Str
  deriving DecidableEq, Repr

/-- Modelled from the spec: `schema.AgentFinish`, declared outside the given sources. -/
structure AgentFinish where
  ReturnValues : GoMap
  Log : Str
  deriving DecidableEq

/-- Go `tools.Tool`, by its name and description. -/
structure Tool where
  Name : Str
  Description : Str
  deriving DecidableEq, Repr

/-- Go `ErrUnableToParseOutput`. -/
def ErrUnableToParseOutput : GoError := GoError.new "unable to parse agent output".toList

/-- Go `ErrInvalidChainReturnType`. -/
def ErrInvalidChainReturnType : GoError := GoError.new "agent chain did not return a string".toList

/-- Go `ErrInvalidOptions`. -/
def ErrInvalidOptions : GoError := GoError.new "options given are invalid".toList

/-- Go `_finalAnswerAction`. -/
def _finalAnswerAction : Str := "Final Answer:".toList

/-- Go `_defaultOutputKey`. -/
def _defaultOutputKey : Str := "output".toList

/-- Go `OneShotZeroAgent`. -/
structure OneShotZeroAgent (σ : Type) where
  Chain : Chain σ
  Tools : List Tool
  OutputKey : Str

/-- The regular expression `Action:\s*(.+)\s*Action Input:\s*(.+)` of `parseOutput`. -/
def actionRe : List ReItem :=
  [ReItem.lit "Action:".toList, ReItem.star reSpace, ReItem.groupPlus reDot, ReItem.star reSpace,
   ReItem.lit "Action Input:".toList, ReItem.star reSpace, ReItem.groupPlus reDot]

/-- Go `(*OneShotZeroAgent).constructScratchPad`. -/
def OneShotZeroAgent.constructScratchPad {σ : Type} (_a : OneShotZeroAgent σ)
    (steps : List AgentStep) : Str :=
  if steps.length > 0 then
    steps.foldl
      (fun scratchPad step =>
        (scratchPad ++ step.Action.Log) ++ ("\nObservation: ".toList ++ step.Observation))
      [] ++ ("\n".toList ++ "Thought:".toList)
  else []

/-- Go `(*OneShotZeroAgent).parseOutput`. The result is the Go triple
`([]schema.AgentAction, *schema.AgentFinish, error)`; `[]` and `none` are `nil`.
The regular expression has two groups, so a match always has the entries 1 and 2. -/
def OneShotZeroAgent.parseOutput {σ : Type} (a : OneShotZeroAgent σ) (output : Str) :
    List AgentAction × Option AgentFinish × Option GoError :=
  if Contains output _finalAnswerAction then
    let splits := Split output _finalAnswerAction
    ([], some { ReturnValues := AList.singleton a.OutputKey
                  (Value.str (splits.getD (splits.length - 1) [])),
                Log := output }, none)
  else
    match FindStringSubmatch actionRe output with
    | none =>
      ([], none,
        some (GoError.wrap1 (ErrUnableToParseOutput.Error ++ colonSpace ++ output)
          ErrUnableToParseOutput))
    | some submatches =>
      ([{ Tool := TrimSpace (submatches.getD 1 []),
          ToolInput := TrimSpace (submatches.getD 2 []),
          Log := output }], none, none)

/-- Go `chains.Run`. An `Except.error` result is the Go result `("", err)`. The two keys
are read at index 0 only after both lists were found to have length one. -/
def Run {σ : Type} (E : ChainsErrors) (c : Chain σ) (input : Str)
    (options : List ChainCallOption) (w : World σ) : Except GoError Str × World σ :=
  let inputKeys := c.GetInputKeys
  if inputKeys.length ≠ 1 then (Except.error E.ErrMultipleInputsInRun, w)
  else
    let outputKeys := c.GetOutputKeys
    if outputKeys.length ≠ 1 then (Except.error E.ErrMultipleOutputsInRun, w)
    else
      let inputValues : GoMap := AList.singleton (inputKeys.getD 0 []) (Value.str input)
      match Call E c inputValues options w with
      | (Except.error err, w1) => (Except.error err, w1)
      | (Except.ok outputValues, w1) =>
        match outputValues.lookup (outputKeys.getD 0 []) with
        | some (Value.str outputValue) => (Except.ok outputValue, w1)
        | _ => (Except.error E.ErrWrongOutputTypeInRun, w1)

/-- Go `OneShotZeroAgentOptions`. -/
structure OneShotZeroAgentOptions where
  outputKey : Str
  deriving DecidableEq, Repr

/-- Go `checkOptions`. -/
def checkOptions (opts : GoMap) : OneShotZeroAgentOptions :=
  let options : OneShotZeroAgentOptions := { outputKey := _defaultOutputKey }
  match opts.lookup "outputKey".toList with
  | some (Value.str outputKey) => { options with outputKey := outputKey }
  | _ => options

/-- Go `NewOneShotAgent`. The functions `chains.NewLLMChain` and `CreatePrompt` are not
part of the given sources; `newLLMChain tools` stands for
`chains.NewLLMChain(llm, CreatePrompt(tools))`. -/
def NewOneShotAgent {σ : Type} (newLLMChain : List Tool → Chain σ) (tools : List Tool)
    (opts : GoMap) : OneShotZeroAgent σ :=
  let options := checkOptions opts
  { Chain := newLLMChain tools, Tools := tools, OutputKey := options.outputKey }

/-- Go `map[string]string`, the type of the caller's inputs of `Plan`. -/
abbrev StrMap := AList (fun _ : Str => Str)

/-- The first lines of Go `(*OneShotZeroAgent).Plan`: the map `fullInputs`, a copy of the
caller's inputs with the keys `agent_scratchpad` and `today` set. `now` is the text
`time.Now().Format("January 02, 2006")`. -/
def OneShotZeroAgent.fullInputs {σ : Type} (a : OneShotZeroAgent σ)
    (intermediateSteps : List AgentStep) (inputs : StrMap) (now : Str) : GoMap :=
  let fullInputs : GoMap := inputs.entries.foldl (fun m e => m.insert e.1 (Value.str e.2)) ∅
  let fullInputs := fullInputs.insert "agent_scratchpad".toList
    (Value.str (a.constructScratchPad intermediateSteps))
  fullInputs.insert "today".toList (Value.str now)

/-- Go `(*OneShotZeroAgent).Plan`; `now` is the formatted current date. -/
def OneShotZeroAgent.Plan {σ : Type} (E : ChainsErrors) (a : OneShotZeroAgent σ)
    (intermediateSteps : List AgentStep) (inputs : StrMap) (callbacks : CallbackList)
    (now : Str) (w : World σ) :
    (List AgentAction × Option AgentFinish × Option GoError) × World σ :=
  match Call E a.Chain (a.fullInputs intermediateSteps inputs now)
      [WithStopWords ["\nObservation:".toList, "\n\tObservation:".toList],
       WithCallbacks callbacks] w with
  | (Except.error err, w1) => (([], none, some err), w1)
  | (Except.ok resp, w1) =>
    match resp.lookup "text".toList with
    | some (Value.str output) => (a.parseOutput output, w1)
    | _ => (([], none, some ErrInvalidChainReturnType), w1)

/-- Go `(*OneShotZeroAgent).GetInputKeys`. -/
def OneShotZeroAgent.GetInputKeys {σ : Type} (a : OneShotZeroAgent σ) : List Str :=
  let chainInputs := a.Chain.GetInputKeys
  chainInputs.foldl
    (fun agentInput v =>
      if v = "agent_scratchpad".toList ∨ v = "today".toList then agentInput
      else agentInput ++ [v])
    []

/-- Go `(*OneShotZeroAgent).GetOutputKeys`. -/
def OneShotZeroAgent.GetOutputKeys {σ : Type} (a : OneShotZeroAgent σ) : List Str :=
  [a.OutputKey]

/-! ### `callbacks/callbacks.go` and `callbacks/manager.go` -/

/-- Go `schema.ChatMessageType`, with the four values `openaillm.go` distinguishes; any
other value of this string type is `other`. -/
inductive ChatMessageType where
  | ChatMessageTypeSystem
  | ChatMessageTypeAI
  | ChatMessageTypeHuman
  | ChatMessageTypeGeneric
  | other (name : Str)
  deriving DecidableEq, Repr

/-- Go `schema.ChatMessage`, an interface read through `GetType()` and `GetText()`. -/
structure ChatMessage where
  GetType : ChatMessageType
  GetText : Str
  deriving DecidableEq, Repr

/-- One call of a method of the interface `CallbackHandler`, with its arguments. The type
`schema.LLMResult` is declared outside the given sources and is the parameter `R`. -/
inductive HookCall (R : Type) where
  | HandleLLMStart (llm : Str) (prompts : List Str) (extraParams : GoMap)
  | HandleLLMNewToken (token : Str)
  | HandleLLMError (err : GoError)
  | HandleLLMEnd (output : R)
  | HandleChatModelStart (llm : Str) (messages : List (List ChatMessage)) (extraParams : GoMap)
  | HandleChainStart (chain : Str) (inputs : GoMap)
  | HandleChainError (err : GoError)
  | HandleChainEnd (outputs : GoMap)
  | HandleToolStart (tool : Str) (input : Str)
  | HandleToolError (err : GoError)
  | HandleToolEnd (output : Str)
  | HandleText (text : Str)
  | HandleAgentAction (action : AgentAction)
  | HandleAgentEnd (action : AgentFinish)

/-- A call received by a handler. -/
structure Delivery (R : Type) where
  handler : CallbackHandler
  call : HookCall R

/-- The handler's method named by `call` is invoked with the arguments of `call`: the
invocation is appended to the log of deliveries. What the handler then does is its own
business. -/
def CallbackHandler.receive {R : Type} (handler : CallbackHandler) (call : HookCall R)
    (log : List (Delivery R)) : List (Delivery R) :=
  log ++ [⟨handler, call⟩]

/-- Go `callbackManager`. -/
structure callbackManager where
  handlers : CallbackList

/-- Go `NewCallbackManager`. -/
def NewCallbackManager (handlers : CallbackList) : callbackManager :=
  { handlers := handlers }

/-- Go `(*callbackManager).HandleLLMStart`. -/
def callbackManager.HandleLLMStart {R : Type} (m : callbackManager) (llm : Str) (prompts : List Str) (extraParams : GoMap)
    (log : List (Delivery R)) : List (Delivery R) :=
  if m.handlers.length = 0 then log
  else m.handlers.foldl (fun log handler => handler.receive (HookCall.HandleLLMStart llm prompts extraParams) log) log

/-- Go `(*callbackManager).HandleLLMNewToken`. -/
def callbackManager.HandleLLMNewToken {R : Type} (m : callbackManager) (token : Str)
    (log : List (Delivery R)) : List (Delivery R) :=
  if m.handlers.length = 0 then log
  else m.handlers.foldl (fun log handler => handler.receive (HookCall.HandleLLMNewToken token) log) log

/-- Go `(*callbackManager).HandleLLMError`. -/
def callbackManager.HandleLLMError {R : Type} (m : callbackManager) (err : GoError)
    (log : List (Delivery R)) : List (Delivery R) :=
  if m.handlers.length = 0 then log
  else m.handlers.foldl (fun log handler => handler.receive (HookCall.HandleLLMError err) log) log

/-- Go `(*callbackManager).HandleLLMEnd`. -/
def callbackManager.HandleLLMEnd {R : Type} (m : callbackManager) (output : R)
    (log : List (Delivery R)) : List (Delivery R) :=
  if m.handlers.length = 0 then log
  else m.handlers.foldl (fun log handler => handler.receive (HookCall.HandleLLMEnd output) log) log

/-- Go `(*callbackManager).HandleChatModelStart`. -/
def callbackManager.HandleChatModelStart {R : Type} (m : callbackManager) (llm : Str) (messages : List (List ChatMessage)) (extraParams : GoMap)
    (log : List (Delivery R)) : List (Delivery R) :=
  if m.handlers.length = 0 then log
  else m.handlers.foldl (fun log handler => handler.receive (HookCall.HandleChatModelStart llm messages extraParams) log) log

/-- Go `(*callbackManager).HandleChainStart`. -/
def callbackManager.HandleChainStart {R : Type} (m : callbackManager) (chain : Str) (inputs : GoMap)
    (log : List (Delivery R)) : List (Delivery R) :=
  if m.handlers.length = 0 then log
  else m.handlers.foldl (fun log handler => handler.receive (HookCall.HandleChainStart chain inputs) log) log

/-- Go `(*callbackManager).HandleChainError`. -/
def callbackManager.HandleChainError {R : Type} (m : callbackManager) (err : GoError)
    (log : List (Delivery R)) : List (Delivery R) :=
  if m.handlers.length = 0 then log
  else m.handlers.foldl (fun log handler => handler.receive (HookCall.HandleChainError err) log) log

/-- Go `(*callbackManager).HandleChainEnd`. -/
def callbackManager.HandleChainEnd {R : Type} (m : callbackManager) (outputs : GoMap)
    (log : List (Delivery R)) : List (Delivery R) :=
  if m.handlers.length = 0 then log
  else m.handlers.foldl (fun log handler => handler.receive (HookCall.HandleChainEnd outputs) log) log

/-- Go `(*callbackManager).HandleToolStart`. -/
def callbackManager.HandleToolStart {R : Type} (m : callbackManager) (tool : Str) (input : Str)
    (log : List (Delivery R)) : List (Delivery R) :=
  if m.handlers.length = 0 then log
  else m.handlers.foldl (fun log handler => handler.receive (HookCall.HandleToolStart tool input) log) log

/-- Go `(*callbackManager).HandleToolError`. -/
def callbackManager.HandleToolError {R : Type} (m : callbackManager) (err : GoError)
    (log : List (Delivery R)) : List (Delivery R) :=
  if m.handlers.length = 0 then log
  else m.handlers.foldl (fun log handler => handler.receive (HookCall.HandleToolError err) log) log

/-- Go `(*callbackManager).HandleToolEnd`. -/
def callbackManager.HandleToolEnd {R : Type} (m : callbackManager) (output : Str)
    (log : List (Delivery R)) : List (Delivery R) :=
  if m.handlers.length = 0 then log
  else m.handlers.foldl (fun log handler => handler.receive (HookCall.HandleToolEnd output) log) log

/-- Go `(*callbackManager).HandleText`. -/
def callbackManager.HandleText {R : Type} (m : callbackManager) (text : Str)
    (log : List (Delivery R)) : List (Delivery R) :=
  if m.handlers.length = 0 then log
  else m.handlers.foldl (fun log handler => handler.receive (HookCall.HandleText text) log) log

/-- Go `(*callbackManager).HandleAgentAction`. -/
def callbackManager.HandleAgentAction {R : Type} (m : callbackManager) (action : AgentAction)
    (log : List (Delivery R)) : List (Delivery R) :=
  if m.handlers.length = 0 then log
  else m.handlers.foldl (fun log handler => handler.receive (HookCall.HandleAgentAction action) log) log

/-- Go `(*callbackManager).HandleAgentEnd`. -/
def callbackManager.HandleAgentEnd {R : Type} (m : callbackManager) (action : AgentFinish)
    (log : List (Delivery R)) : List (Delivery R) :=
  if m.handlers.length = 0 then log
  else m.handlers.foldl (fun log handler => handler.receive (HookCall.HandleAgentEnd action) log) log

/-- Emit an event on the manager: invoke the manager's method that `call` names. -/
def callbackManager.emit {R : Type} (m : callbackManager) :
    HookCall R → List (Delivery R) → List (Delivery R)
  | HookCall.HandleLLMStart llm prompts extraParams => m.HandleLLMStart llm prompts extraParams
  | HookCall.HandleLLMNewToken token => m.HandleLLMNewToken token
  | HookCall.HandleLLMError err => m.HandleLLMError err
  | HookCall.HandleLLMEnd output => m.HandleLLMEnd output
  | HookCall.HandleChatModelStart llm messages extraParams => m.HandleChatModelStart llm messages extraParams
  | HookCall.HandleChainStart chain inputs => m.HandleChainStart chain inputs
  | HookCall.HandleChainError err => m.HandleChainError err
  | HookCall.HandleChainEnd outputs => m.HandleChainEnd outputs
  | HookCall.HandleToolStart tool input => m.HandleToolStart tool input
  | HookCall.HandleToolError err => m.HandleToolError err
  | HookCall.HandleToolEnd output => m.HandleToolEnd output
  | HookCall.HandleText text => m.HandleText text
  | HookCall.HandleAgentAction action => m.HandleAgentAction action
  | HookCall.HandleAgentEnd action => m.HandleAgentEnd action

/-! ### `llms/openai/openaillm.go`

The provider client is the library `go-openai`. It is modelled as a record of functions from
a request to a result. A stream is the finite list of the results that `Recv()` returns
before it returns `io.EOF`. The fields `Temperature`, `TopP` and `FrequencyPenalty`, which
are copied with a conversion to `float32`, are left out of the options and requests. -/

/-- Go `defaultChatModel`. -/
def defaultChatModel : Str := "gpt-3.5-turbo".toList

/-- Go `defaultCompletionModel`. -/
def defaultCompletionModel : Str := "text-davinci-003".toList

/-- Go `defaultEmbeddingModel`. -/
def defaultEmbeddingModel : Str := "text-embedding-ada-002".toList

/-- Go `defaultMaxTokens`. -/
def defaultMaxTokens : Int := 1024

/-- Go `ErrEmptyResponse`. -/
def ErrEmptyResponse : GoError := GoError.new "no response".toList

/-- Go `ErrMissingToken`. -/
def ErrMissingToken : GoError :=
  GoError.new
    "missing the OpenAI API key, set it in the OPENAI_API_KEY environment variable".toList

/-- Go `ErrUnexpectedResponseLength`. -/
def ErrUnexpectedResponseLength : GoError := GoError.new "unexpected length of response".toList

/-- Go `ErrUnexpectedEmbeddingModel`. -/
def ErrUnexpectedEmbeddingModel : GoError := GoError.new "unexpected embedding model".toList

/-- Modelled from the spec: `llms.CallOptions`, declared outside the given sources, with
the fields `openaillm.go` reads. The streaming token handler is a state transformer over
the handler's own state `θ` that may return an error; `none` is the nil handler. -/
structure CallOptions (θ : Type) where
  Model : Str
  MaxTokens : Int
  StopWords : List Str
  StreamingFunc : Option (Str → θ → Option GoError × θ)

/-- Modelled from the spec: `llms.CallOption`, a function that modifies the options. -/
abbrev CallOption (θ : Type) := CallOptions θ → CallOptions θ

/-- Modelled from the spec: `llms.Generation`, with the field `openaillm.go` fills in. -/
structure Generation where
  Text : Str
  deriving DecidableEq, Repr

/-- Modelled from the spec: `schema.AIChatMessage`. -/
structure AIChatMessage where
  Text : Str
  deriving DecidableEq, Repr

/-- Modelled from the spec: `llms.ChatGeneration`. -/
structure ChatGeneration where
  Message : AIChatMessage
  deriving DecidableEq, Repr

/-- The library type `openai.CompletionRequest`. -/
structure CompletionRequest where
  Model : Str
  Prompt : Str
  MaxTokens : Int
  Stream : Bool
  Stop : List Str
  deriving DecidableEq, Repr

/-- The library type `openai.CompletionChoice`. -/
structure CompletionChoice where
  Text : Str
  deriving DecidableEq, Repr

/-- The library type `openai.CompletionResponse`. -/
structure CompletionResponse where
  Choices : List CompletionChoice
  deriving DecidableEq, Repr

/-- The library type `openai.ChatCompletionMessage`. -/
structure ChatCompletionMessage where
  Role : Str
  Content : Str
  deriving DecidableEq, Repr

/-- The library type `openai.ChatCompletionRequest`. -/
structure ChatCompletionRequest where
  Model : Str
  Messages : List ChatCompletionMessage
  MaxTokens : Int
  Stream : Bool
  Stop : List Str
  deriving DecidableEq, Repr

/-- The library type `openai.ChatCompletionChoice`. -/
structure ChatCompletionChoice where
  Message : ChatCompletionMessage
  deriving DecidableEq, Repr

/-- The library type `openai.ChatCompletionResponse`. -/
structure ChatCompletionResponse where
  Choices : List ChatCompletionChoice
  deriving DecidableEq, Repr

/-- The library type `openai.ChatCompletionStreamChoiceDelta`. -/
structure ChatCompletionStreamChoiceDelta where
  Content : Str
  deriving DecidableEq, Repr

/-- The library type `openai.ChatCompletionStreamChoice`. -/
structure ChatCompletionStreamChoice where
  Delta : ChatCompletionStreamChoiceDelta
  deriving DecidableEq, Repr

/-- The library type `openai.ChatCompletionStreamResponse`. -/
structure ChatCompletionStreamResponse where
  Choices : List ChatCompletionStreamChoice
  deriving DecidableEq, Repr

/-- The library type `openai.EmbeddingModel`. -/
abbrev EmbeddingModel := Int

/-- The library type `openai.EmbeddingRequest`. -/
structure EmbeddingRequest where
  Model : EmbeddingModel
  Input : List Str
  deriving DecidableEq, Repr

set_option linter.dupNamespace false in
/-- The library type `openai.Embedding`; `F32` is the type `float32`. -/
structure Embedding (F32 : Type) where
  Embedding : List F32

/-- The library type `openai.EmbeddingResponse`. -/
structure EmbeddingResponse (F32 : Type) where
  Data : List (Embedding F32)

/-- The library type `openai.Client`, by the five calls `openaillm.go` makes. -/
structure Client (F32 : Type) where
  CreateCompletion : CompletionRequest → Except GoError CompletionResponse
  CreateCompletionStream :
    CompletionRequest → Except GoError (List (Except GoError CompletionResponse))
  CreateChatCompletion : ChatCompletionRequest → Except GoError ChatCompletionResponse
  CreateChatCompletionStream :
    ChatCompletionRequest → Except GoError (List (Except GoError ChatCompletionStreamResponse))
  CreateEmbeddings : EmbeddingRequest → Except GoError (EmbeddingResponse F32)

/-- Go `openai.LLM`. -/
structure LLM (F32 : Type) where
  client : Client F32

/-- The state of the streaming token handler, with the calls made to it so far: the
fragment passed and the error returned. -/
structure TokenLog (θ : Type) where
  state : θ
  calls : List (Str × Option GoError)

/-- The option loop at the head of `Generate` and `Chat`:
`opts := llms.CallOptions{MaxTokens: defaultMaxTokens}; for _, opt := range options { opt(&opts) }`. -/
def applyCallOptions {θ : Type} (options : List (CallOption θ)) : CallOptions θ :=
  options.foldl (fun opts opt => opt opts)
    { Model := [], MaxTokens := defaultMaxTokens, StopWords := [], StreamingFunc := none }

/-- The request built by `Generate` for the first prompt. -/
def completionRequest {θ : Type} (opts : CallOptions θ) (prompt : Str) : CompletionRequest :=
  let model := if opts.Model.length = 0 then defaultCompletionModel else opts.Model
  { Model := model, Prompt := prompt, MaxTokens := opts.MaxTokens,
    Stream := opts.StreamingFunc.isSome, Stop := opts.StopWords }

/-- The loop `out := make([]T, len(l)); for i := range l { out[i] = g(l[i]) }`. -/
def fillByIndex {α β : Type} (g : α → β) (zero : β) (l : List α) : List β :=
  l.enum.foldl (fun out e => out.set e.1 (g e.2)) (List.replicate l.length zero)

/-- The body of the message loop of `Chat`: the provider message for a chat message. -/
def chatCompletionMessage (m : ChatMessage) : ChatCompletionMessage :=
  let msg : ChatCompletionMessage := { Role := [], Content := m.GetText }
  match m.GetType with
  | ChatMessageType.ChatMessageTypeSystem => { msg with Role := "system".toList }
  | ChatMessageType.ChatMessageTypeAI => { msg with Role := "assistant".toList }
  | ChatMessageType.ChatMessageTypeHuman => { msg with Role := "user".toList }
  | ChatMessageType.ChatMessageTypeGeneric => { msg with Role := "user".toList }
  | ChatMessageType.other _ => msg

/-- The request built by `Chat`. -/
def chatCompletionRequest {θ : Type} (opts : CallOptions θ) (messages : List ChatMessage) :
    ChatCompletionRequest :=
  let msgs := fillByIndex chatCompletionMessage { Role := [], Content := [] } messages
  let model := if opts.Model.length = 0 then defaultChatModel else opts.Model
  { Model := model, Messages := msgs, MaxTokens := opts.MaxTokens,
    Stream := opts.StreamingFunc.isSome, Stop := opts.StopWords }

/-- The receive loop of the streaming branch, which `Generate` and `Chat` both have; they
differ only in how the text of the first choice is read, `firstText`, which is `none` for
a response without choices. The stream ending is `io.EOF`; `output` is the text so far. -/
def recvLoop {R θ : Type} (firstText : R → Option Str)
    (StreamingFunc : Str → θ → Option GoError × θ) :
    List (Except GoError R) → Str → TokenLog θ → Except GoError Str × TokenLog θ
  | [], output, h => (Except.ok output, h)
  | Except.error err :: _, _, h => (Except.error err, h)
  | Except.ok resp :: rest, output, h =>
    match firstText resp with
    | none => (Except.error ErrEmptyResponse, h)
    | some text =>
      match StreamingFunc text h.state with
      | (some err, s) => (Except.error err, ⟨s, h.calls ++ [(text, some err)]⟩)
      | (none, s) =>
        recvLoop firstText StreamingFunc rest (output ++ text) ⟨s, h.calls ++ [(text, none)]⟩

/-- Go `(*LLM).Generate`. The outer `none` is the run-time panic of `prompts[0]` on an
empty slice; an `Except.error` is the Go result `(nil, err)`. -/
def LLM.Generate {F32 θ : Type} (o : LLM F32) (prompts : List Str)
    (options : List (CallOption θ)) (h : TokenLog θ) :
    Option (Except GoError (List Generation) × TokenLog θ) :=
  let opts := applyCallOptions options
  match prompts with
  | [] => none
  | prompt :: _ =>
    let request := completionRequest opts prompt
    match opts.StreamingFunc with
    | some StreamingFunc =>
      match o.client.CreateCompletionStream request with
      | Except.error err => some (Except.error err, h)
      | Except.ok stream =>
        match recvLoop (fun resp : CompletionResponse => resp.Choices.head?.map (·.Text))
            StreamingFunc stream [] h with
        | (Except.error err, h1) => some (Except.error err, h1)
        | (Except.ok output, h1) => some (Except.ok [{ Text := output }], h1)
    | none =>
      match o.client.CreateCompletion request with
      | Except.error err => some (Except.error err, h)
      | Except.ok resp =>
        match resp.Choices with
        | [] => some (Except.error ErrEmptyResponse, h)
        | choice :: _ => some (Except.ok [{ Text := choice.Text }], h)

/-- Go `(*LLM).Chat`. -/
def LLM.Chat {F32 θ : Type} (o : LLM F32) (messages : List ChatMessage)
    (options : List (CallOption θ)) (h : TokenLog θ) :
    Except GoError ChatGeneration × TokenLog θ :=
  let opts := applyCallOptions options
  let request := chatCompletionRequest opts messages
  match opts.StreamingFunc with
  | some StreamingFunc =>
    match o.client.CreateChatCompletionStream request with
    | Except.error err => (Except.error err, h)
    | Except.ok stream =>
      match recvLoop
          (fun resp : ChatCompletionStreamResponse => resp.Choices.head?.map (·.Delta.Content))
          StreamingFunc stream [] h with
      | (Except.error err, h1) => (Except.error err, h1)
      | (Except.ok output, h1) => (Except.ok { Message := { Text := output } }, h1)
  | none =>
    match o.client.CreateChatCompletion request with
    | Except.error err => (Except.error err, h)
    | Except.ok resp =>
      match resp.Choices with
      | [] => (Except.error ErrEmptyResponse, h)
      | choice :: _ => (Except.ok { Message := { Text := choice.Message.Content } }, h)

/-- Go `(*LLM).CreateEmbedding`. The result is the Go pair of the vectors and the error.
`float64` is the conversion from `float32`, `zero` the zero value of `float64`, and
`stringToEmbeddingModel` the package table of known models, which is declared outside the
given sources. -/
def LLM.CreateEmbedding {F32 F64 : Type} (o : LLM F32) (float64 : F32 → F64) (zero : F64)
    (stringToEmbeddingModel : Str → Option EmbeddingModel) (model : Str)
    (inputTexts : List Str) : List (List F64) × Option GoError :=
  let model := if model.length = 0 then defaultEmbeddingModel else model
  match stringToEmbeddingModel model with
  | none => ([], some ErrUnexpectedEmbeddingModel)
  | some embeddingModel =>
    match o.client.CreateEmbeddings { Model := embeddingModel, Input := inputTexts } with
    | Except.error err => ([], some err)
    | Except.ok resp =>
      let data := resp.Data
      if data.length = 0 then ([], some ErrEmptyResponse)
      else if inputTexts.length ≠ data.length then ([], some ErrUnexpectedResponseLength)
      else
        (fillByIndex (fun d : Embedding F32 => fillByIndex float64 zero d.Embedding) [] data,
          none)

/-- Go `(*LLM).Call`. The outer `none` is a panic of `Generate`; an `Except.error` is the Go
result `("", err)`. -/
def LLM.Call {F32 θ : Type} (o : LLM F32) (prompt : Str) (options : List (CallOption θ))
    (h : TokenLog θ) : Option (Except GoError Str × TokenLog θ) :=
  match o.Generate [prompt] options h with
  | none => none
  | some (Except.error err, h1) => some (Except.error err, h1)
  | some (Except.ok r, h1) =>
    match r with
    | [] => some (Except.error ErrEmptyResponse, h1)
    | generation :: _ => some (Except.ok generation.Text, h1)

/-! ### Concrete chains used to instantiate the theorems -/

/-- Sentinel errors with sample texts. -/
def sampleErrors : ChainsErrors where
  ErrInvalidInputValues := GoError.new "invalid input values".toList
  ErrInvalidOutputValues := GoError.new "missing key in output values".toList
  ErrMissingInputValues := GoError.new "missing key in input values".toList
  ErrMultipleInputsInRun := GoError.new "run not supported in chain with more then one expected input".toList
  ErrMultipleOutputsInRun := GoError.new "run not supported in chain with more then one expected output".toList
  ErrWrongOutputTypeInRun := GoError.new "run not supported in chain that returns value that is not string".toList

/-- A memory over the state "number of calls made" that derives the variable `history`. -/
def sampleMemory : Memory Nat where
  LoadMemoryVariables := fun _ n =>
    (Except.ok (AList.singleton "history".toList (Value.str "earlier turns".toList)), n + 1)
  SaveContext := fun _ _ n => (none, n + 1)

/-- A chain that expects `question` and produces `text`. -/
def sampleChain : Chain Nat where
  Call := fun _ _ n => (Except.ok (AList.singleton "text".toList (Value.str "42".toList)), n + 1)
  GetMemory := sampleMemory
  GetInputKeys := ["question".toList]
  GetOutputKeys := ["text".toList]

/-- A chain like `sampleChain` that declares the output key `answer` but produces `text`. -/
def forgetfulChain : Chain Nat where
  Call := fun _ _ n => (Except.ok (AList.singleton "text".toList (Value.str "42".toList)), n + 1)
  GetMemory := sampleMemory
  GetInputKeys := ["question".toList]
  GetOutputKeys := ["answer".toList]

/-- An input map with the key `question`. -/
def sampleInputs : GoMap := AList.singleton "question".toList (Value.str "6 times 7".toList)

/-- A world in which nothing has been invoked yet. -/
def freshWorld : World Nat := ⟨0, []⟩

/-- An agent over `sampleChain` with the default output key. -/
def sampleAgent : OneShotZeroAgent Nat where
  Chain := sampleChain
  Tools := []
  OutputKey := _defaultOutputKey

/-- The caller's inputs of a planning step over `sampleChain`. -/
def sampleQuestion : StrMap := AList.singleton "question".toList "6 times 7".toList

/-- Modelled from the spec: `llms.WithStreamingFunc`, the option that sets the streaming
token handler. -/
def WithStreamingFunc {θ : Type} (streamingFunc : Str → θ → Option GoError × θ) :
    CallOption θ :=
  fun opts => { opts with StreamingFunc := some streamingFunc }

/-- A token handler that counts its calls and never fails. -/
def countingHandler : Str → Nat → Option GoError × Nat :=
  fun _ n => (none, n + 1)

/-- A token handler that counts its calls and fails on the second one. -/
def impatientHandler : Str → Nat → Option GoError × Nat :=
  fun _ n => (if n = 1 then some (GoError.new "enough".toList) else none, n + 1)

/-- A provider whose streams hold three fragments and which returns one vector of two
numbers for every input text. -/
def sampleClient : Client Nat where
  CreateCompletion := fun _ => Except.ok { Choices := [{ Text := "Hello".toList }] }
  CreateCompletionStream := fun _ =>
    Except.ok [Except.ok { Choices := [{ Text := "Hel".toList }] },
      Except.ok { Choices := [{ Text := "lo".toList }, { Text := "unused".toList }] },
      Except.ok { Choices := [{ Text := "!".toList }] }]
  CreateChatCompletion := fun _ =>
    Except.ok { Choices := [{ Message := { Role := "assistant".toList, Content := "Hi".toList } }] }
  CreateChatCompletionStream := fun _ =>
    Except.ok [Except.ok { Choices := [{ Delta := { Content := "H".toList } }] },
      Except.ok { Choices := [{ Delta := { Content := "i".toList } }] },
      Except.ok { Choices := [{ Delta := { Content := "!".toList } }] }]
  CreateEmbeddings := fun req =>
    Except.ok { Data := req.Input.map (fun text => { Embedding := [text.length, 7] }) }

/-- A language model over `sampleClient`. -/
def sampleLLM : LLM Nat := { client := sampleClient }

/-- A language model whose provider returns a given list of vectors for every request. -/
def fixedEmbeddingLLM (data : List (List Nat)) : LLM Nat where
  client := { sampleClient with
    CreateEmbeddings := fun _ => Except.ok { Data := data.map (fun v => { Embedding := v }) } }

/-- A table of known embedding models with the default model only. -/
def sampleModels : Str → Option EmbeddingModel :=
  fun model => if model = defaultEmbeddingModel then some 1 else none

/-- A memory like `sampleMemory` whose `SaveContext` fails. -/
def readOnlyMemory : Memory Nat where
  LoadMemoryVariables := sampleMemory.LoadMemoryVariables
  SaveContext := fun _ _ n => (some (GoError.new "memory is read-only".toList), n + 1)

/-- A chain like `sampleChain` over `readOnlyMemory`. -/
def readOnlyChain : Chain Nat where
  Call := sampleChain.Call
  GetMemory := readOnlyMemory
  GetInputKeys := ["question".toList]
  GetOutputKeys := ["text".toList]

/-- A chain like `sampleChain` whose value under `text` is a number. -/
def numericChain : Chain Nat where
  Call := fun _ _ n => (Except.ok (AList.singleton "text".toList (Value.int 42)), n + 1)
  GetMemory := sampleMemory
  GetInputKeys := ["question".toList]
  GetOutputKeys := ["text".toList]

/-! ## Theorems -/

/-! ### Maps and errors -/

theorem foldl_insert_lookup (k : Str) :
    ∀ (l : List (Sigma fun _ : Str => Value)) (dst : GoMap), l.NodupKeys →
      (l.foldl (fun m e => m.insert e.1 e.2) dst).lookup k
        = (match l.dlookup k with
           | some v => some v
           | none => dst.lookup k)
  | [], dst, _ => by simp
  | e :: l, dst, h => by
    obtain ⟨a, b⟩ := e
    rw [List.nodupKeys_cons] at h
    rw [List.foldl_cons, foldl_insert_lookup k l _ h.2]
    by_cases hk : k = a
    · subst hk
      have hnone : l.dlookup k = none := List.dlookup_eq_none.mpr h.1
      simp [hnone, AList.lookup_insert]
    · have hd : List.dlookup k (⟨a, b⟩ :: l) = List.dlookup k l :=
        List.dlookup_cons_ne l (s := ⟨a, b⟩) hk
      rw [hd, AList.lookup_insert_ne hk]

theorem rangeInsert_lookup (src dst : GoMap) (k : Str) :
    (rangeInsert src dst).lookup k
      = (match src.lookup k with
         | some v => some v
         | none => dst.lookup k) :=
  foldl_insert_lookup k src.entries dst src.nodupKeys

theorem GoError.Is_self (e : GoError) : e.Is e = true := by
  cases e <;> simp [GoError.Is]

theorem firstMissing_none (values : GoMap) :
    ∀ keys : List Str, (∀ k ∈ keys, (values.lookup k).isSome = true) →
      firstMissing values keys = none
  | [], _ => rfl
  | k :: ks, h => by
    have hk := h k (List.mem_cons_self _ _)
    simp only [firstMissing, hk, if_true]
    exact firstMissing_none values ks (fun x hx => h x (List.mem_cons_of_mem _ hx))

theorem firstMissing_some (values : GoMap) :
    ∀ keys : List Str, (∃ k ∈ keys, values.lookup k = none) →
      ∃ pre k post, keys = pre ++ k :: post ∧ (∀ x ∈ pre, (values.lookup x).isSome = true)
        ∧ values.lookup k = none ∧ firstMissing values keys = some k
  | [], h => by simp at h
  | k :: ks, h => by
    by_cases hk : (values.lookup k).isSome = true
    · have h2 : ∃ x ∈ ks, values.lookup x = none := by
        obtain ⟨x, hx, hnone⟩ := h
        rcases List.mem_cons.mp hx with rfl | hx
        · simp [hnone] at hk
        · exact ⟨x, hx, hnone⟩
      obtain ⟨pre, k2, post, hks, hpre, hk2, hfm⟩ := firstMissing_some values ks h2
      refine ⟨k :: pre, k2, post, by simp [hks], ?_, hk2, by simp [firstMissing, hk, hfm]⟩
      intro x hx
      rcases List.mem_cons.mp hx with rfl | hx
      · exact hk
      · exact hpre x hx
    · have hnone : values.lookup k = none := by
        cases hl : values.lookup k with
        | none => rfl
        | some v => simp [hl] at hk
      exact ⟨[], k, ks, rfl, by simp, hnone, by simp [firstMissing, hnone]⟩

/-! ### The chain invocation protocol -/

theorem Call_of_valid_inputs {σ : Type} (E : ChainsErrors) (c : Chain σ) (inputValues : GoMap)
    (options : List ChainCallOption) (w : World σ)
    (hin : ∀ k ∈ c.GetInputKeys, (inputValues.lookup k).isSome = true) :
    Call E c inputValues options w =
      (match c.invokeLoad inputValues w with
       | (Except.error err, w1) => (Except.error err, w1)
       | (Except.ok newValues, w1) =>
         match c.invokeCall (rangeInsert newValues (rangeInsert inputValues ∅)) options w1 with
         | (Except.error err, w2) => (Except.error err, w2)
         | (Except.ok outputValues, w2) =>
           match validateOutputs E c outputValues with
           | some err => (Except.error err, w2)
           | none =>
             match c.invokeSave inputValues outputValues w2 with
             | (some err, w3) => (Except.error err, w3)
             | (none, w3) => (Except.ok outputValues, w3)) := by
  have hv : validateInputs E c inputValues = none := by
    simp [validateInputs, firstMissing_none inputValues c.GetInputKeys hin]
  simp only [Call, hv]

/-- C1: when the input map lacks a declared input key, `chains.Call` returns an error and
no map; the error wraps `ErrInvalidInputValues` and `ErrMissingInputValues`, its message
ends with the first missing key in declared order, and the world is unchanged: no state
change and no invocation of `LoadMemoryVariables`, `c.Call` or `SaveContext`. -/
theorem Call_missing_input_key {σ : Type} (E : ChainsErrors) (c : Chain σ)
    (inputValues : GoMap) (options : List ChainCallOption) (w : World σ)
    (h : ∃ k ∈ c.GetInputKeys, inputValues.lookup k = none) :
    ∃ pre k post err,
      c.GetInputKeys = pre ++ k :: post
      ∧ (∀ x ∈ pre, (inputValues.lookup x).isSome = true)
      ∧ inputValues.lookup k = none
      ∧ Call E c inputValues options w = (Except.error err, w)
      ∧ err.Is E.ErrInvalidInputValues = true
      ∧ err.Is E.ErrMissingInputValues = true
      ∧ err.Error = E.ErrInvalidInputValues.Error ++ ": ".toList
          ++ E.ErrMissingInputValues.Error ++ ": ".toList ++ k := by
  obtain ⟨pre, k, post, hkeys, hpre, hk, hfm⟩ := firstMissing_some inputValues c.GetInputKeys h
  refine ⟨pre, k, post,
    GoError.wrap2 (E.ErrInvalidInputValues.Error ++ colonSpace ++ E.ErrMissingInputValues.Error
      ++ colonSpace ++ k) E.ErrInvalidInputValues E.ErrMissingInputValues,
    hkeys, hpre, hk, ?_, ?_, ?_, ?_⟩
  · simp only [Call, validateInputs, hfm]
  · simp [GoError.Is, GoError.Is_self]
  · simp [GoError.Is, GoError.Is_self]
  · rfl

/-- C1 at a concrete chain: `sampleChain` called without its key `question`. -/
theorem Call_missing_input_key_witness :
    ∃ pre k post err,
      sampleChain.GetInputKeys = pre ++ k :: post
      ∧ (∀ x ∈ pre, ((∅ : GoMap).lookup x).isSome = true)
      ∧ (∅ : GoMap).lookup k = none
      ∧ Call sampleErrors sampleChain ∅ [] freshWorld = (Except.error err, freshWorld)
      ∧ err.Is sampleErrors.ErrInvalidInputValues = true
      ∧ err.Is sampleErrors.ErrMissingInputValues = true
      ∧ err.Error = sampleErrors.ErrInvalidInputValues.Error ++ ": ".toList
          ++ sampleErrors.ErrMissingInputValues.Error ++ ": ".toList ++ k :=
  Call_missing_input_key sampleErrors sampleChain ∅ [] freshWorld
    ⟨"question".toList, by decide, by decide⟩

/-- C2: when the inputs are valid and `c.Call` succeeds with a map that lacks a declared
output key, `chains.Call` returns an error and no map; the error wraps
`ErrInvalidOutputValues`, its message ends with the first missing key, and the trace gains
exactly the memory load and the chain call, so `SaveContext` is not invoked. -/
theorem Call_missing_output_key {σ : Type} (E : ChainsErrors) (c : Chain σ)
    (inputValues : GoMap) (options : List ChainCallOption) (w : World σ)
    (newValues outputValues : GoMap) (s1 s2 : σ)
    (hin : ∀ k ∈ c.GetInputKeys, (inputValues.lookup k).isSome = true)
    (hload : c.GetMemory.LoadMemoryVariables inputValues w.state = (Except.ok newValues, s1))
    (hcall : c.Call (rangeInsert newValues (rangeInsert inputValues ∅)) options s1
      = (Except.ok outputValues, s2))
    (hout : ∃ k ∈ c.GetOutputKeys, outputValues.lookup k = none) :
    ∃ pre k post err,
      c.GetOutputKeys = pre ++ k :: post
      ∧ (∀ x ∈ pre, (outputValues.lookup x).isSome = true)
      ∧ outputValues.lookup k = none
      ∧ Call E c inputValues options w
          = (Except.error err,
             ⟨s2, w.trace ++ [Event.LoadMemoryVariables inputValues,
                Event.ChainCall (rangeInsert newValues (rangeInsert inputValues ∅)) options]⟩)
      ∧ err.Is E.ErrInvalidOutputValues = true
      ∧ err.Error = E.ErrInvalidOutputValues.Error ++ ": ".toList ++ k := by
  obtain ⟨pre, k, post, hkeys, hpre, hk, hfm⟩ :=
    firstMissing_some outputValues c.GetOutputKeys hout
  refine ⟨pre, k, post,
    GoError.wrap1 (E.ErrInvalidOutputValues.Error ++ colonSpace ++ k) E.ErrInvalidOutputValues,
    hkeys, hpre, hk, ?_, ?_, ?_⟩
  · rw [Call_of_valid_inputs E c inputValues options w hin]
    simp only [Chain.invokeLoad, hload, Chain.invokeCall, hcall, validateOutputs, hfm,
      List.append_assoc, List.singleton_append]
  · simp [GoError.Is, GoError.Is_self]
  · rfl

/-- C2 at a concrete chain: `forgetfulChain` produces `text` but declares `answer`. -/
theorem Call_missing_output_key_witness :
    ∃ pre k post err,
      forgetfulChain.GetOutputKeys = pre ++ k :: post
      ∧ (∀ x ∈ pre,
          ((AList.singleton "text".toList (Value.str "42".toList) : GoMap).lookup x).isSome = true)
      ∧ (AList.singleton "text".toList (Value.str "42".toList) : GoMap).lookup k = none
      ∧ Call sampleErrors forgetfulChain sampleInputs [] freshWorld
          = (Except.error err,
             ⟨2, freshWorld.trace ++ [Event.LoadMemoryVariables sampleInputs,
                Event.ChainCall
                  (rangeInsert (AList.singleton "history".toList (Value.str "earlier turns".toList))
                    (rangeInsert sampleInputs ∅)) []]⟩)
      ∧ err.Is sampleErrors.ErrInvalidOutputValues = true
      ∧ err.Error = sampleErrors.ErrInvalidOutputValues.Error ++ ": ".toList ++ k :=
  Call_missing_output_key sampleErrors forgetfulChain sampleInputs [] freshWorld
    (AList.singleton "history".toList (Value.str "earlier turns".toList))
    (AList.singleton "text".toList (Value.str "42".toList)) 1 2
    (by decide) rfl rfl ⟨"answer".toList, by decide, by decide⟩

/-- C3: when `chains.Call` succeeds with the map `outputValues`, the memory load and
`c.Call` succeeded, `c.Call` returned that very map, it passed the output validation, and
the trace gains exactly three invocations, the last and only `SaveContext` being made with
the caller's `inputValues` (not the merged map given to `c.Call`) and `outputValues`. -/
theorem Call_success_saves_original_inputs {σ : Type} (E : ChainsErrors) (c : Chain σ)
    (inputValues : GoMap) (options : List ChainCallOption) (w : World σ) (outputValues : GoMap)
    (hok : (Call E c inputValues options w).1 = Except.ok outputValues) :
    ∃ newValues s1 s2 s3,
      c.GetMemory.LoadMemoryVariables inputValues w.state = (Except.ok newValues, s1)
      ∧ c.Call (rangeInsert newValues (rangeInsert inputValues ∅)) options s1
          = (Except.ok outputValues, s2)
      ∧ validateOutputs E c outputValues = none
      ∧ c.GetMemory.SaveContext inputValues outputValues s2 = (none, s3)
      ∧ Call E c inputValues options w
          = (Except.ok outputValues,
             ⟨s3, w.trace ++ [Event.LoadMemoryVariables inputValues,
                Event.ChainCall (rangeInsert newValues (rangeInsert inputValues ∅)) options,
                Event.SaveContext inputValues outputValues]⟩) := by
  unfold Call at hok ⊢
  cases hv : validateInputs E c inputValues with
  | some err => simp [hv] at hok
  | none =>
    rcases hl : c.GetMemory.LoadMemoryVariables inputValues w.state with ⟨r1, s1⟩
    cases r1 with
    | error err => simp [hv, Chain.invokeLoad, hl] at hok
    | ok newValues =>
      rcases hc : c.Call (rangeInsert newValues (rangeInsert inputValues ∅)) options s1
        with ⟨r2, s2⟩
      cases r2 with
      | error err => simp [hv, Chain.invokeLoad, hl, Chain.invokeCall, hc] at hok
      | ok out =>
        cases hvo : validateOutputs E c out with
        | some err => simp [hv, Chain.invokeLoad, hl, Chain.invokeCall, hc, hvo] at hok
        | none =>
          rcases hs : c.GetMemory.SaveContext inputValues out s2 with ⟨r3, s3⟩
          cases r3 with
          | some err =>
            simp [hv, Chain.invokeLoad, hl, Chain.invokeCall, hc, hvo, Chain.invokeSave, hs]
              at hok
          | none =>
            have hout : out = outputValues := by
              simpa [hv, Chain.invokeLoad, hl, Chain.invokeCall, hc, hvo, Chain.invokeSave, hs]
                using hok
            subst hout
            refine ⟨newValues, s1, s2, s3, rfl, hc, hvo, hs, ?_⟩
            simp [Chain.invokeLoad, hl, Chain.invokeCall, hc, hvo, Chain.invokeSave, hs]

/-- C3 at a concrete chain: `sampleChain` called with `sampleInputs`. -/
theorem Call_success_saves_original_inputs_witness :
    ∃ newValues s1 s2 s3,
      sampleChain.GetMemory.LoadMemoryVariables sampleInputs freshWorld.state
          = (Except.ok newValues, s1)
      ∧ sampleChain.Call (rangeInsert newValues (rangeInsert sampleInputs ∅)) [] s1
          = (Except.ok (AList.singleton "text".toList (Value.str "42".toList)), s2)
      ∧ validateOutputs sampleErrors sampleChain
          (AList.singleton "text".toList (Value.str "42".toList)) = none
      ∧ sampleChain.GetMemory.SaveContext sampleInputs
          (AList.singleton "text".toList (Value.str "42".toList)) s2 = (none, s3)
      ∧ Call sampleErrors sampleChain sampleInputs [] freshWorld
          = (Except.ok (AList.singleton "text".toList (Value.str "42".toList)),
             ⟨s3, freshWorld.trace ++ [Event.LoadMemoryVariables sampleInputs,
                Event.ChainCall (rangeInsert newValues (rangeInsert sampleInputs ∅)) [],
                Event.SaveContext sampleInputs
                  (AList.singleton "text".toList (Value.str "42".toList))]⟩) :=
  Call_success_saves_original_inputs sampleErrors sampleChain sampleInputs [] freshWorld
    (AList.singleton "text".toList (Value.str "42".toList)) rfl

/-- C4: with valid inputs and a successful memory load, the second invocation made by
`chains.Call` is `c.Call` on a map `fullValues` whose keys are those of `inputValues` and of
the loaded `newValues`, where every key of `newValues` carries the memory's value and every
other key carries the caller's value. -/
theorem Call_passes_union_to_chain {σ : Type} (E : ChainsErrors) (c : Chain σ)
    (inputValues : GoMap) (options : List ChainCallOption) (w : World σ)
    (newValues : GoMap) (s1 : σ)
    (hin : ∀ k ∈ c.GetInputKeys, (inputValues.lookup k).isSome = true)
    (hload : c.GetMemory.LoadMemoryVariables inputValues w.state = (Except.ok newValues, s1)) :
    ∃ fullValues rest,
      (Call E c inputValues options w).2.trace
          = w.trace ++ Event.LoadMemoryVariables inputValues
              :: Event.ChainCall fullValues options :: rest
      ∧ (∀ k, k ∈ fullValues ↔ k ∈ inputValues ∨ k ∈ newValues)
      ∧ (∀ k v, newValues.lookup k = some v → fullValues.lookup k = some v)
      ∧ (∀ k, k ∉ newValues → fullValues.lookup k = inputValues.lookup k) := by
  have hlook : ∀ k, (rangeInsert newValues (rangeInsert inputValues ∅)).lookup k
      = (match newValues.lookup k with
         | some v => some v
         | none => inputValues.lookup k) := by
    intro k
    rw [rangeInsert_lookup, rangeInsert_lookup]
    cases newValues.lookup k <;> cases inputValues.lookup k <;> simp
  have htrace : ∃ rest, (Call E c inputValues options w).2.trace
      = w.trace ++ Event.LoadMemoryVariables inputValues
          :: Event.ChainCall (rangeInsert newValues (rangeInsert inputValues ∅)) options
          :: rest := by
    rw [Call_of_valid_inputs E c inputValues options w hin]
    simp only [Chain.invokeLoad, hload]
    rcases hc : c.Call (rangeInsert newValues (rangeInsert inputValues ∅)) options s1
      with ⟨r2, s2⟩
    cases r2 with
    | error err => exact ⟨[], by simp [Chain.invokeCall, hc]⟩
    | ok out =>
      cases hvo : validateOutputs E c out with
      | some err => exact ⟨[], by simp [Chain.invokeCall, hc, hvo]⟩
      | none =>
        rcases hs : c.GetMemory.SaveContext inputValues out s2 with ⟨r3, s3⟩
        cases r3 with
        | some err =>
          exact ⟨[Event.SaveContext inputValues out],
            by simp [Chain.invokeCall, hc, hvo, Chain.invokeSave, hs]⟩
        | none =>
          exact ⟨[Event.SaveContext inputValues out],
            by simp [Chain.invokeCall, hc, hvo, Chain.invokeSave, hs]⟩
  obtain ⟨rest, hrest⟩ := htrace
  refine ⟨_, rest, hrest, ?_, ?_, ?_⟩
  · intro k
    rw [← AList.lookup_isSome, ← AList.lookup_isSome, ← AList.lookup_isSome, hlook k]
    cases newValues.lookup k <;> cases inputValues.lookup k <;> simp
  · intro k v hv
    rw [hlook k, hv]
  · intro k hk
    rw [hlook k, AList.lookup_eq_none.mpr hk]

/-- C4 at a concrete chain: `sampleChain` called with `sampleInputs`. -/
theorem Call_passes_union_to_chain_witness :
    ∃ fullValues rest,
      (Call sampleErrors sampleChain sampleInputs [] freshWorld).2.trace
          = freshWorld.trace ++ Event.LoadMemoryVariables sampleInputs
              :: Event.ChainCall fullValues [] :: rest
      ∧ (∀ k, k ∈ fullValues ↔ k ∈ sampleInputs
          ∨ k ∈ (AList.singleton "history".toList (Value.str "earlier turns".toList) : GoMap))
      ∧ (∀ k v,
          (AList.singleton "history".toList (Value.str "earlier turns".toList) : GoMap).lookup k
            = some v → fullValues.lookup k = some v)
      ∧ (∀ k, k ∉ (AList.singleton "history".toList (Value.str "earlier turns".toList) : GoMap)
          → fullValues.lookup k = sampleInputs.lookup k) :=
  Call_passes_union_to_chain sampleErrors sampleChain sampleInputs [] freshWorld
    (AList.singleton "history".toList (Value.str "earlier turns".toList)) 1 (by decide) rfl

/-! ### Searching and splitting strings -/

theorem Index_some_split (sub : Str) :
    ∀ (s : Str) (m : Nat), Index sub s = some m →
      s = s.take m ++ sub ++ s.drop (m + sub.length)
  | [], m, h => by
    unfold Index at h
    split at h
    · rename_i hp
      have hsub : sub = [] := by
        have := List.isPrefixOf_iff_prefix.mp hp
        exact List.prefix_nil.mp this
      simp [hsub]
    · simp at h
  | c :: cs, m, h => by
    unfold Index at h
    split at h
    · rename_i hp
      have hm : m = 0 := by simpa using h.symm
      subst hm
      obtain ⟨t, ht⟩ := List.isPrefixOf_iff_prefix.mp hp
      rw [← ht]
      simp
    · cases hi : Index sub cs with
      | none => simp [hi] at h
      | some j =>
        have hm : m = j + 1 := by simpa [hi] using h.symm
        subst hm
        have ih := Index_some_split sub cs j hi
        have hd : List.drop (j + 1 + sub.length) (c :: cs) = List.drop (j + sub.length) cs := by
          rw [show j + 1 + sub.length = (j + sub.length) + 1 by omega, List.drop_succ_cons]
        rw [hd, List.take_succ_cons, List.cons_append, List.cons_append, ← ih]

theorem Index_none_of_append (sub : Str) :
    ∀ (p v : Str), Index sub (p ++ sub ++ v) ≠ none
  | [], v => by
    have hp : sub.isPrefixOf (sub ++ v) = true :=
      List.isPrefixOf_iff_prefix.mpr (List.prefix_append sub v)
    simp only [List.nil_append]
    generalize sub ++ v = l at hp
    cases l <;> simp [Index, hp]
  | c :: p, v => by
    have ih := Index_none_of_append sub p v
    simp only [List.cons_append, Index]
    split
    · simp
    · cases hi : Index sub (p ++ sub ++ v) with
      | none => exact absurd hi ih
      | some j => simp [hi]

theorem Index_length_le (sub : Str) :
    ∀ (s : Str) (m : Nat), Index sub s = some m → m + sub.length ≤ s.length
  | [], m, h => by
    unfold Index at h
    split at h
    · rename_i hp
      have hsub : sub = [] := List.prefix_nil.mp (List.isPrefixOf_iff_prefix.mp hp)
      have hm : m = 0 := by simpa using h.symm
      simp [hsub, hm]
    · simp at h
  | c :: cs, m, h => by
    unfold Index at h
    split at h
    · rename_i hp
      have hm : m = 0 := by simpa using h.symm
      have := (List.isPrefixOf_iff_prefix.mp hp).length_le
      omega
    · cases hi : Index sub cs with
      | none => simp [hi] at h
      | some j =>
        have hm : m = j + 1 := by simpa [hi] using h.symm
        have ih := Index_length_le sub cs j hi
        simp only [List.length_cons]
        omega

/-- The model of `strings.Contains` agrees with the occurrence of `sub` inside `s`. -/
theorem Contains_iff (s sub : Str) :
    Contains s sub = true ↔ ∃ p v, s = p ++ sub ++ v := by
  constructor
  · intro h
    cases hi : Index sub s with
    | none => simp [Contains, hi] at h
    | some m => exact ⟨_, _, Index_some_split sub s m hi⟩
  · rintro ⟨p, v, rfl⟩
    cases hi : Index sub (p ++ sub ++ v) with
    | none => exact absurd hi (Index_none_of_append sub p v)
    | some m => unfold Contains; rw [hi]; rfl

theorem countLoop_le_length (sep : Str) (hsep : sep ≠ []) :
    ∀ (fuel : Nat) (s : Str), countLoop sep fuel s ≤ s.length
  | 0, s => by simp [countLoop]
  | fuel + 1, s => by
    unfold countLoop
    cases hi : Index sep s with
    | none => simp
    | some i =>
      have hle := Index_length_le sep s i hi
      have hpos : 0 < sep.length := List.length_pos.mpr hsep
      have ih := countLoop_le_length sep hsep fuel (s.drop (i + sep.length))
      simp only [List.length_drop] at ih
      simp only
      omega

theorem getD_last_cons (x : Str) (l : List Str) (hl : l ≠ []) :
    (x :: l).getD ((x :: l).length - 1) [] = l.getD (l.length - 1) [] := by
  cases l with
  | nil => exact absurd rfl hl
  | cons y ys => simp [List.getD_cons_succ]

theorem splitLoop_ne_nil (sep : Str) (rounds : Nat) (s : Str) : splitLoop sep rounds s ≠ [] := by
  cases rounds with
  | zero => simp [splitLoop]
  | succ r =>
    unfold splitLoop
    cases Index sep s <;> simp

/-- The last piece produced by the split loop holds no separator, and it is either the
whole string (when that holds no separator) or what follows a separator. -/
theorem splitLoop_last (sep : Str) (hsep : sep ≠ []) :
    ∀ (rounds fuel : Nat) (s : Str), s.length < fuel → countLoop sep fuel s ≤ rounds →
      Index sep ((splitLoop sep rounds s).getD ((splitLoop sep rounds s).length - 1) []) = none
      ∧ (Index sep s ≠ none →
          ∃ p, s = p ++ sep
            ++ (splitLoop sep rounds s).getD ((splitLoop sep rounds s).length - 1) [])
  | 0, fuel, s, hf, hc => by
    cases fuel with
    | zero => omega
    | succ f =>
      unfold countLoop at hc
      cases hi : Index sep s with
      | none => simp [splitLoop, hi]
      | some i => simp [hi] at hc
  | rounds + 1, fuel, s, hf, hc => by
    cases fuel with
    | zero => omega
    | succ f =>
      unfold countLoop at hc
      cases hi : Index sep s with
      | none => simp [splitLoop, hi]
      | some i =>
        have hle := Index_length_le sep s i hi
        have hpos : 0 < sep.length := List.length_pos.mpr hsep
        have hf2 : (s.drop (i + sep.length)).length < f := by
          simp only [List.length_drop]; omega
        have hc2 : countLoop sep f (s.drop (i + sep.length)) ≤ rounds := by
          simp only [hi] at hc; omega
        obtain ⟨ih1, ih2⟩ := splitLoop_last sep hsep rounds f (s.drop (i + sep.length)) hf2 hc2
        have hlast : (splitLoop sep (rounds + 1) s).getD
              ((splitLoop sep (rounds + 1) s).length - 1) []
            = (splitLoop sep rounds (s.drop (i + sep.length))).getD
              ((splitLoop sep rounds (s.drop (i + sep.length))).length - 1) [] := by
          have : splitLoop sep (rounds + 1) s
              = s.take i :: splitLoop sep rounds (s.drop (i + sep.length)) := by
            simp [splitLoop, hi]
          rw [this, getD_last_cons _ _ (splitLoop_ne_nil sep rounds _)]
        rw [hlast]
        refine ⟨ih1, fun _ => ?_⟩
        have hs := Index_some_split sep s i hi
        by_cases hrest : Index sep (s.drop (i + sep.length)) = none
        · have hwhole : (splitLoop sep rounds (s.drop (i + sep.length))).getD
                ((splitLoop sep rounds (s.drop (i + sep.length))).length - 1) []
              = s.drop (i + sep.length) := by
            cases rounds with
            | zero => simp [splitLoop]
            | succ r => simp [splitLoop, hrest]
          rw [hwhole]
          exact ⟨s.take i, hs⟩
        · obtain ⟨p, hp⟩ := ih2 hrest
          refine ⟨s.take i ++ sep ++ p, ?_⟩
          calc s = s.take i ++ sep ++ s.drop (i + sep.length) := hs
            _ = s.take i ++ sep ++ (p ++ sep ++ _) := by rw [← hp]
            _ = _ := by simp [List.append_assoc]

/-- The last piece of `Split`: it holds no separator and follows the last separator. -/
theorem Split_last (s sep : Str) (hsep : sep ≠ []) (h : Contains s sep = true) :
    ∃ p, s = p ++ sep ++ (Split s sep).getD ((Split s sep).length - 1) []
      ∧ Contains ((Split s sep).getD ((Split s sep).length - 1) []) sep = false := by
  have hcount : Count s sep = countLoop sep (s.length + 1) s := by simp [Count, hsep]
  have hle : Count s sep ≤ s.length := by
    rw [hcount]; exact countLoop_le_length sep hsep _ s
  have hsplit : Split s sep = splitLoop sep (Count s sep) s := by
    unfold Split
    rw [if_neg hsep]
    simp only
    rw [if_neg (by omega)]
    simp
  obtain ⟨h1, h2⟩ := splitLoop_last sep hsep (Count s sep) (s.length + 1) s (by omega)
    (by rw [hcount])
  have hidx : Index sep s ≠ none := by
    intro hn
    simp [Contains, hn] at h
  obtain ⟨p, hp⟩ := h2 hidx
  rw [hsplit]
  exact ⟨p, hp, by unfold Contains; rw [h1]; rfl⟩

/-! ### Parsing the model output: the finish branch -/

theorem _finalAnswerAction_ne_nil : _finalAnswerAction ≠ [] := by decide

/-- C5: for an output that contains `Final Answer:`, `parseOutput` returns no action, no
error, and a finish whose `ReturnValues` is the one-entry map from the agent's `OutputKey`
to a string `v`, where the output is some text, then `Final Answer:`, then `v`, and `v`
does not contain `Final Answer:`; the finish's `Log` is the whole output. -/
theorem parseOutput_final_answer {σ : Type} (a : OneShotZeroAgent σ) (output : Str)
    (h : Contains output _finalAnswerAction = true) :
    ∃ p v,
      output = p ++ _finalAnswerAction ++ v
      ∧ Contains v _finalAnswerAction = false
      ∧ a.parseOutput output
          = ([], some { ReturnValues := AList.singleton a.OutputKey (Value.str v),
                        Log := output }, none)
      ∧ (AList.singleton a.OutputKey (Value.str v) : GoMap).entries
          = [⟨a.OutputKey, Value.str v⟩] := by
  obtain ⟨p, hp, hv⟩ := Split_last output _finalAnswerAction _finalAnswerAction_ne_nil h
  refine ⟨p, _, hp, hv, ?_, rfl⟩
  simp only [OneShotZeroAgent.parseOutput, h, if_true]

/-- C5 at a concrete output with two markers. -/
theorem parseOutput_final_answer_witness :
    ∃ p v,
      "Final Answer: maybe 41?\nFinal Answer: 42".toList = p ++ _finalAnswerAction ++ v
      ∧ Contains v _finalAnswerAction = false
      ∧ sampleAgent.parseOutput "Final Answer: maybe 41?\nFinal Answer: 42".toList
          = ([], some { ReturnValues := AList.singleton sampleAgent.OutputKey (Value.str v),
                        Log := "Final Answer: maybe 41?\nFinal Answer: 42".toList }, none)
      ∧ (AList.singleton sampleAgent.OutputKey (Value.str v) : GoMap).entries
          = [⟨sampleAgent.OutputKey, Value.str v⟩] :=
  parseOutput_final_answer sampleAgent "Final Answer: maybe 41?\nFinal Answer: 42".toList
    (by decide)

/-- C6: on the output `...\nFinal Answer: 42` the finish's return value is ` 42`, with the
blank that follows the marker: it is not `42`, and it is not a trimmed string, since
`strings.TrimSpace` would change it. -/
theorem final_answer_value_keeps_blank {σ : Type} (a : OneShotZeroAgent σ) :
    a.parseOutput "...\nFinal Answer: 42".toList
        = ([], some { ReturnValues := AList.singleton a.OutputKey (Value.str " 42".toList),
                      Log := "...\nFinal Answer: 42".toList }, none)
      ∧ " 42".toList ≠ "42".toList
      ∧ TrimSpace " 42".toList = "42".toList
      ∧ TrimSpace " 42".toList ≠ " 42".toList := by
  refine ⟨?_, by decide, by decide, by decide⟩
  have hc : Contains "...\nFinal Answer: 42".toList _finalAnswerAction = true := by decide
  have hs : (Split "...\nFinal Answer: 42".toList _finalAnswerAction).getD
      ((Split "...\nFinal Answer: 42".toList _finalAnswerAction).length - 1) []
      = " 42".toList := by decide
  simp only [OneShotZeroAgent.parseOutput, hc, if_true, hs]

/-! ### The regular expression matcher -/

theorem stripLit_append (text rest : Str) : stripLit text (text ++ rest) = some rest := by
  have hp : text.isPrefixOf (text ++ rest) = true :=
    List.isPrefixOf_iff_prefix.mpr (List.prefix_append text rest)
  simp [stripLit, hp]

/-- A greedy `cls*` takes the whole run `ws` of class members when the continuation then
succeeds behind it: that is the first alternative the backtracking search tries. -/
theorem starGreedy_greedy {β : Type} (cls : Char → Bool) (k : Str → Str → Option β) (rest : Str)
    (r : β) (hrest : ∀ c, rest.head? = some c → cls c = false) :
    ∀ (ws acc : Str), (∀ c ∈ ws, cls c = true) → k (acc ++ ws) rest = some r →
      starGreedy cls k acc (ws ++ rest) = some r
  | [], acc, _, hk => by
    rw [List.append_nil] at hk
    cases rest with
    | nil => simpa [starGreedy] using hk
    | cons c cs =>
      have hc : cls c = false := hrest c rfl
      simpa [starGreedy, hc] using hk
  | w :: ws, acc, hws, hk => by
    have hw : cls w = true := hws w (List.mem_cons_self _ _)
    have hk2 : k ((acc ++ [w]) ++ ws) rest = some r := by simpa using hk
    have ih := starGreedy_greedy cls k rest r hrest ws (acc ++ [w])
      (fun c hc => hws c (List.mem_cons_of_mem _ hc)) hk2
    simp [starGreedy, hw, ih]

theorem plusGreedy_greedy {β : Type} (cls : Char → Bool) (k : Str → Str → Option β) (rest : Str)
    (r : β) (hrest : ∀ c, rest.head? = some c → cls c = false) (w : Char) (ws : Str)
    (hw : cls w = true) (hws : ∀ c ∈ ws, cls c = true) (hk : k (w :: ws) rest = some r) :
    plusGreedy cls k (w :: ws ++ rest) = some r := by
  have := starGreedy_greedy cls k rest r hrest ws [w] hws (by simpa using hk)
  simpa [plusGreedy, hw] using this

/-- Whatever a greedy `cls*` returns is a result of its continuation. -/
theorem starGreedy_sound {β : Type} (cls : Char → Bool) (k : Str → Str → Option β) (r : β) :
    ∀ (inp acc : Str), starGreedy cls k acc inp = some r → ∃ acc1 inp1, k acc1 inp1 = some r
  | [], acc, h => ⟨acc, [], by simpa [starGreedy] using h⟩
  | c :: cs, acc, h => by
    unfold starGreedy at h
    split at h
    · cases hs : starGreedy cls k (acc ++ [c]) cs with
      | some r1 =>
        rw [hs] at h
        have hr : r1 = r := by simpa using h
        exact starGreedy_sound cls k r cs (acc ++ [c]) (hr ▸ hs)
      | none =>
        rw [hs] at h
        exact ⟨acc, c :: cs, h⟩
    · exact ⟨acc, c :: cs, h⟩

theorem plusGreedy_sound {β : Type} (cls : Char → Bool) (k : Str → Str → Option β) (r : β)
    (inp : Str) (h : plusGreedy cls k inp = some r) : ∃ acc1 inp1, k acc1 inp1 = some r := by
  cases inp with
  | nil => simp [plusGreedy] at h
  | cons c cs =>
    cases hc : cls c with
    | false => simp [plusGreedy, hc] at h
    | true => exact starGreedy_sound cls k r cs [c] (by simpa [plusGreedy, hc] using h)

theorem FindStringSubmatch_of_matchItems (re : List ReItem) (s : Str) (groups : List Str)
    (rest : Str) (h : matchItems re [] s = some (groups, rest)) :
    FindStringSubmatch re s = some (s.take (s.length - rest.length) :: groups) := by
  cases s with
  | nil => simp [FindStringSubmatch, h]
  | cons c cs => simp [FindStringSubmatch, h]

/-- A match of an expression that starts with a literal text needs that text in the input. -/
theorem FindStringSubmatch_lit_none (text : Str) (re : List ReItem) :
    ∀ s : Str, Index text s = none → FindStringSubmatch (ReItem.lit text :: re) s = none
  | [], h => by
    have hp : text.isPrefixOf [] = false := by
      cases hp : text.isPrefixOf [] with
      | false => rfl
      | true => simp [Index, hp] at h
    simp [FindStringSubmatch, matchItems, stripLit, hp]
  | c :: cs, h => by
    have hp : text.isPrefixOf (c :: cs) = false := by
      cases hp : text.isPrefixOf (c :: cs) with
      | false => rfl
      | true => simp [Index, hp] at h
    have hcs : Index text cs = none := by
      cases hi : Index text cs with
      | none => rfl
      | some j => simp [Index, hp, hi] at h
    simp [FindStringSubmatch, matchItems, stripLit, hp, FindStringSubmatch_lit_none text re cs hcs]

theorem reSpace_unicodeIsSpace (c : Char) (h : reSpace c = true) : unicodeIsSpace c = true := by
  simp only [reSpace, Bool.or_eq_true, beq_iff_eq] at h
  rcases h with (((h | h) | h) | h) | h <;> subst h <;> decide

theorem exists_first_outside (cls : Char → Bool) :
    ∀ t : Str, (∃ c ∈ t, cls c = false) →
      ∃ ws c0 rest, t = ws ++ c0 :: rest ∧ (∀ c ∈ ws, cls c = true) ∧ cls c0 = false
  | [], h => by simp at h
  | x :: xs, h => by
    cases hx : cls x with
    | false => exact ⟨[], x, xs, rfl, by simp, hx⟩
    | true =>
      have h2 : ∃ c ∈ xs, cls c = false := by
        obtain ⟨c, hc, hcls⟩ := h
        rcases List.mem_cons.mp hc with rfl | hc
        · simp [hx] at hcls
        · exact ⟨c, hc, hcls⟩
      obtain ⟨ws, c0, rest, ht, hws, hc0⟩ := exists_first_outside cls xs h2
      refine ⟨x :: ws, c0, rest, by simp [ht], ?_, hc0⟩
      intro c hc
      rcases List.mem_cons.mp hc with rfl | hc
      · exact hx
      · exact hws c hc

theorem dropWhile_append_of_all (p : Char → Bool) (l : Str) :
    ∀ ws : Str, (∀ c ∈ ws, p c = true) → List.dropWhile p (ws ++ l) = List.dropWhile p l
  | [], _ => rfl
  | w :: ws, h => by
    have hw : p w = true := h w (List.mem_cons_self _ _)
    simp only [List.cons_append, List.dropWhile_cons, hw, if_true]
    exact dropWhile_append_of_all p l ws (fun c hc => h c (List.mem_cons_of_mem _ hc))

theorem TrimSpace_drop_reSpace (ws l : Str) (h : ∀ c ∈ ws, reSpace c = true) :
    TrimSpace (ws ++ l) = TrimSpace l := by
  unfold TrimSpace
  rw [dropWhile_append_of_all unicodeIsSpace l ws (fun c hc => reSpace_unicodeIsSpace c (h c hc))]

/-- The action pattern on a text of the shape
`Action:` blanks tool `\n` `Action Input:` blanks input: the first match the backtracking
search finds takes the tool up to the line end and the input up to the end of the text. -/
theorem matchItems_actionRe (tw : Str) (t0 : Char) (t1 : Str) (iw : Str) (i0 : Char) (i1 : Str)
    (htw : ∀ c ∈ tw, reSpace c = true) (ht0 : reSpace t0 = false)
    (hT : ∀ c ∈ t0 :: t1, reDot c = true)
    (hiw : ∀ c ∈ iw, reSpace c = true) (hi0 : reSpace i0 = false)
    (hI : ∀ c ∈ i0 :: i1, reDot c = true) :
    matchItems actionRe []
      ("Action:".toList ++ ((' ' :: tw) ++ ((t0 :: t1) ++ ('\n' :: ("Action Input:".toList
        ++ ((' ' :: iw) ++ ((i0 :: i1) ++ [])))))))
      = some ([t0 :: t1, i0 :: i1], []) := by
  have h7 : matchItems [ReItem.groupPlus reDot] [t0 :: t1] ((i0 :: i1) ++ [])
      = some ([t0 :: t1, i0 :: i1], []) := by
    rw [matchItems]
    exact plusGreedy_greedy reDot _ [] _ (by simp) i0 i1 (hI i0 (List.mem_cons_self _ _))
      (fun c hc => hI c (List.mem_cons_of_mem _ hc)) (by simp [matchItems])
  have h6 : matchItems [ReItem.star reSpace, ReItem.groupPlus reDot] [t0 :: t1]
      ((' ' :: iw) ++ ((i0 :: i1) ++ [])) = some ([t0 :: t1, i0 :: i1], []) := by
    rw [matchItems]
    refine starGreedy_greedy reSpace _ _ _ ?_ (' ' :: iw) [] ?_ h7
    · intro c hc
      have : c = i0 := by simpa using hc.symm
      rw [this]; exact hi0
    · intro c hc
      rcases List.mem_cons.mp hc with rfl | hc
      · decide
      · exact hiw c hc
  have h5 : matchItems [ReItem.lit "Action Input:".toList, ReItem.star reSpace,
      ReItem.groupPlus reDot] [t0 :: t1]
      ("Action Input:".toList ++ ((' ' :: iw) ++ ((i0 :: i1) ++ [])))
      = some ([t0 :: t1, i0 :: i1], []) := by
    rw [matchItems, stripLit_append]
    exact h6
  have h4 : matchItems [ReItem.star reSpace, ReItem.lit "Action Input:".toList,
      ReItem.star reSpace, ReItem.groupPlus reDot] [t0 :: t1]
      (['\n'] ++ ("Action Input:".toList ++ ((' ' :: iw) ++ ((i0 :: i1) ++ []))))
      = some ([t0 :: t1, i0 :: i1], []) := by
    rw [matchItems]
    refine starGreedy_greedy reSpace _ _ _ ?_ ['\n'] [] ?_ h5
    · intro c hc
      have : c = 'A' := (Option.some.inj (hc : some 'A' = some c)).symm
      rw [this]; decide
    · intro c hc
      have : c = '\n' := by simpa using hc
      rw [this]; decide
  have h3 : matchItems [ReItem.groupPlus reDot, ReItem.star reSpace,
      ReItem.lit "Action Input:".toList, ReItem.star reSpace, ReItem.groupPlus reDot] []
      ((t0 :: t1) ++ ('\n' :: ("Action Input:".toList ++ ((' ' :: iw) ++ ((i0 :: i1) ++ [])))))
      = some ([t0 :: t1, i0 :: i1], []) := by
    rw [matchItems]
    refine plusGreedy_greedy reDot _ _ _ ?_ t0 t1 (hT t0 (List.mem_cons_self _ _))
      (fun c hc => hT c (List.mem_cons_of_mem _ hc)) h4
    intro c hc
    have : c = '\n' := by simpa using hc.symm
    rw [this]; decide
  have h2 : matchItems [ReItem.star reSpace, ReItem.groupPlus reDot, ReItem.star reSpace,
      ReItem.lit "Action Input:".toList, ReItem.star reSpace, ReItem.groupPlus reDot] []
      ((' ' :: tw) ++ ((t0 :: t1) ++ ('\n' :: ("Action Input:".toList
        ++ ((' ' :: iw) ++ ((i0 :: i1) ++ []))))))
      = some ([t0 :: t1, i0 :: i1], []) := by
    rw [matchItems]
    refine starGreedy_greedy reSpace _ _ _ ?_ (' ' :: tw) [] ?_ h3
    · intro c hc
      have : c = t0 := by simpa using hc.symm
      rw [this]; exact ht0
    · intro c hc
      rcases List.mem_cons.mp hc with rfl | hc
      · decide
      · exact htw c hc
  unfold actionRe
  rw [matchItems, stripLit_append]
  exact h2

/-! ### Parsing the model output: the action and the error branch -/

theorem reDot_of_ne_newline (l : Str) (h : '\n' ∉ l) : ∀ c ∈ l, reDot c = true := by
  intro c hc
  have hne : c ≠ '\n' := fun heq => h (heq ▸ hc)
  simp [reDot, hne]

theorem exists_outside_reSpace (l : Str) (h : ∃ c ∈ l, unicodeIsSpace c = false) :
    ∃ c ∈ l, reSpace c = false := by
  obtain ⟨c, hc, hu⟩ := h
  refine ⟨c, hc, ?_⟩
  cases hr : reSpace c with
  | false => rfl
  | true => rw [reSpace_unicodeIsSpace c hr] at hu; exact absurd hu (by decide)

/-- C7: for a tool name `t` and a tool input `i` without newline, each with a code point
that is not white space, when the text `Action: t\nAction Input: i` does not contain
`Final Answer:`, `parseOutput` returns no finish, no error, and the single action with
`Tool = TrimSpace t`, `ToolInput = TrimSpace i` and `Log` the whole text. -/
theorem parseOutput_action {σ : Type} (a : OneShotZeroAgent σ) (t i : Str)
    (ht : '\n' ∉ t) (hi : '\n' ∉ i)
    (htw : ∃ c ∈ t, unicodeIsSpace c = false) (hiw : ∃ c ∈ i, unicodeIsSpace c = false)
    (hfa : Contains ("Action: ".toList ++ t ++ "\nAction Input: ".toList ++ i)
      _finalAnswerAction = false) :
    a.parseOutput ("Action: ".toList ++ t ++ "\nAction Input: ".toList ++ i)
      = ([{ Tool := TrimSpace t, ToolInput := TrimSpace i,
            Log := "Action: ".toList ++ t ++ "\nAction Input: ".toList ++ i }], none, none) := by
  obtain ⟨tw, t0, t1, hteq, htws, ht0⟩ := exists_first_outside reSpace t (exists_outside_reSpace t htw)
  obtain ⟨iw, i0, i1, hieq, hiws, hi0⟩ := exists_first_outside reSpace i (exists_outside_reSpace i hiw)
  have hT : ∀ c ∈ t0 :: t1, reDot c = true := fun c hc =>
    reDot_of_ne_newline t ht c (by rw [hteq]; exact List.mem_append_right _ hc)
  have hI : ∀ c ∈ i0 :: i1, reDot c = true := fun c hc =>
    reDot_of_ne_newline i hi c (by rw [hieq]; exact List.mem_append_right _ hc)
  have hm := matchItems_actionRe tw t0 t1 iw i0 i1 htws ht0 hT hiws hi0 hI
  have hout : "Action: ".toList ++ t ++ "\nAction Input: ".toList ++ i
      = "Action:".toList ++ ((' ' :: tw) ++ ((t0 :: t1) ++ ('\n' :: ("Action Input:".toList
        ++ ((' ' :: iw) ++ ((i0 :: i1) ++ [])))))) := by
    have h1 : "Action: ".toList = "Action:".toList ++ [' '] := by decide
    have h2 : "\nAction Input: ".toList = '\n' :: ("Action Input:".toList ++ [' ']) := by decide
    rw [h1, h2, hteq, hieq]
    simp only [List.append_assoc, List.cons_append, List.nil_append, List.append_nil,
      List.singleton_append]
  have hfind := FindStringSubmatch_of_matchItems actionRe _ _ _ hm
  rw [← hout] at hfind
  have htrim_t : TrimSpace (t0 :: t1) = TrimSpace t := by
    rw [hteq]; exact (TrimSpace_drop_reSpace tw (t0 :: t1) htws).symm
  have htrim_i : TrimSpace (i0 :: i1) = TrimSpace i := by
    rw [hieq]; exact (TrimSpace_drop_reSpace iw (i0 :: i1) hiws).symm
  simp only [OneShotZeroAgent.parseOutput, hfa, hfind]
  simp [htrim_t, htrim_i]

/-- C7 at the text `Action: search\nAction Input: weather in Paris`. -/
theorem parseOutput_action_witness :
    sampleAgent.parseOutput "Action: search\nAction Input: weather in Paris".toList
      = ([{ Tool := "search".toList, ToolInput := "weather in Paris".toList,
            Log := "Action: search\nAction Input: weather in Paris".toList }], none, none) :=
  parseOutput_action sampleAgent "search".toList "weather in Paris".toList
    (by decide) (by decide) ⟨'s', by decide, by decide⟩ ⟨'w', by decide, by decide⟩ (by decide)

/-- C8: for an output that does not contain `Final Answer:` and that the action pattern
does not match, which is so in particular when it does not contain `Action:`,
`parseOutput` returns no action, no finish, and an error that wraps
`ErrUnableToParseOutput` and whose message is that error's text, `: `, and the output. -/
theorem parseOutput_unparsable {σ : Type} (a : OneShotZeroAgent σ) (output : Str)
    (hfa : Contains output _finalAnswerAction = false)
    (hre : FindStringSubmatch actionRe output = none ∨ Contains output "Action:".toList = false) :
    ∃ err,
      a.parseOutput output = ([], none, some err)
      ∧ err.Is ErrUnableToParseOutput = true
      ∧ err.Error = "unable to parse agent output: ".toList ++ output := by
  have hnone : FindStringSubmatch actionRe output = none := by
    rcases hre with h | h
    · exact h
    · have hidx : Index "Action:".toList output = none := by
        cases hi : Index "Action:".toList output with
        | none => rfl
        | some j =>
          unfold Contains at h
          rw [hi] at h
          exact absurd h (by simp)
      exact FindStringSubmatch_lit_none _ _ output hidx
  refine ⟨GoError.wrap1 (ErrUnableToParseOutput.Error ++ colonSpace ++ output)
    ErrUnableToParseOutput, ?_, ?_, ?_⟩
  · simp only [OneShotZeroAgent.parseOutput, hfa, hnone]
    simp
  · show (decide (_ = _) || ErrUnableToParseOutput.Is ErrUnableToParseOutput) = true
    rw [GoError.Is_self, Bool.or_true]
  · have : ErrUnableToParseOutput.Error ++ colonSpace = "unable to parse agent output: ".toList := by
      decide
    rw [← this]
    rfl

/-- C8 at the text `I am thinking...`. -/
theorem parseOutput_unparsable_witness :
    ∃ err,
      sampleAgent.parseOutput "I am thinking...".toList = ([], none, some err)
      ∧ err.Is ErrUnableToParseOutput = true
      ∧ err.Error = "unable to parse agent output: ".toList ++ "I am thinking...".toList :=
  parseOutput_unparsable sampleAgent "I am thinking...".toList (by decide) (Or.inr (by decide))

/-- C9: every result of `parseOutput` has one of three shapes: an error with no action and
no finish; no error, a non-empty action list and no finish; no error, no action and a
finish. -/
theorem parseOutput_shape {σ : Type} (a : OneShotZeroAgent σ) (output : Str) :
    ((a.parseOutput output).2.2.isSome = true ∧ (a.parseOutput output).1 = []
        ∧ (a.parseOutput output).2.1 = none)
    ∨ ((a.parseOutput output).2.2 = none ∧ (a.parseOutput output).1 ≠ []
        ∧ (a.parseOutput output).2.1 = none)
    ∨ ((a.parseOutput output).2.2 = none ∧ (a.parseOutput output).1 = []
        ∧ (a.parseOutput output).2.1.isSome = true) := by
  unfold OneShotZeroAgent.parseOutput
  split
  · exact Or.inr (Or.inr ⟨rfl, rfl, rfl⟩)
  · split
    · exact Or.inl ⟨rfl, rfl, rfl⟩
    · exact Or.inr (Or.inl ⟨rfl, by simp, rfl⟩)

/-! ### Every match of the action pattern has two groups -/

theorem matchItems_groups_length :
    ∀ (re : List ReItem) (groups : List Str) (inp : Str) (gs : List Str) (rest : Str),
      matchItems re groups inp = some (gs, rest) →
        gs.length = groups.length
          + re.countP (fun item => match item with
              | ReItem.groupPlus _ => true
              | _ => false)
  | [], groups, inp, gs, rest, h => by
    simp only [matchItems, Option.some.injEq, Prod.mk.injEq] at h
    simp [h.1]
  | ReItem.lit text :: re, groups, inp, gs, rest, h => by
    rw [matchItems] at h
    cases hs : stripLit text inp with
    | none => simp [hs] at h
    | some inp1 =>
      rw [hs] at h
      have ih := matchItems_groups_length re groups inp1 gs rest h
      simpa using ih
  | ReItem.star cls :: re, groups, inp, gs, rest, h => by
    rw [matchItems] at h
    obtain ⟨_, inp1, hk⟩ := starGreedy_sound cls _ _ inp [] h
    have ih := matchItems_groups_length re groups inp1 gs rest hk
    simpa using ih
  | ReItem.groupPlus cls :: re, groups, inp, gs, rest, h => by
    rw [matchItems] at h
    obtain ⟨g, inp1, hk⟩ := plusGreedy_sound cls _ _ inp h
    have ih := matchItems_groups_length re (groups ++ [g]) inp1 gs rest hk
    rw [ih]
    simp
    omega

/-- A match of the action pattern has three entries, so that `matches[1]` and `matches[2]`
of `parseOutput` are always in range. -/
theorem FindStringSubmatch_actionRe_length :
    ∀ (s : Str) (ms : List Str), FindStringSubmatch actionRe s = some ms → ms.length = 3
  | [], ms, h => by
    unfold FindStringSubmatch at h
    cases hm : matchItems actionRe [] [] with
    | none => simp [hm] at h
    | some r =>
      obtain ⟨gs, rest⟩ := r
      have hl := matchItems_groups_length actionRe [] [] gs rest hm
      have hms : ms = [] :: gs := by simpa [hm] using h.symm
      rw [hms]
      simpa [actionRe] using hl
  | c :: cs, ms, h => by
    unfold FindStringSubmatch at h
    cases hm : matchItems actionRe [] (c :: cs) with
    | none =>
      rw [hm] at h
      exact FindStringSubmatch_actionRe_length cs ms h
    | some r =>
      obtain ⟨gs, rest⟩ := r
      have hl := matchItems_groups_length actionRe [] (c :: cs) gs rest hm
      have hms : ms = (c :: cs).take ((c :: cs).length - rest.length) :: gs := by
        simpa [hm] using h.symm
      rw [hms]
      simpa [actionRe] using hl

/-! ### The scratchpad -/

theorem foldl_scratchPad (f : AgentStep → Str) :
    ∀ (steps : List AgentStep) (init : Str),
      steps.foldl (fun scratchPad step => scratchPad ++ f step) init
        = init ++ (steps.map f).flatten
  | [], init => by simp
  | step :: steps, init => by
    rw [List.foldl_cons, foldl_scratchPad f steps]
    simp [List.append_assoc]

/-- C10: `constructScratchPad` returns the empty string for no steps; for one or more
steps it returns, in step order, each step's action log followed by `\nObservation: ` and
the step's observation, and then once `\nThought:`; so for two steps it is the first log and
observation, the second log and observation, and the cue. -/
theorem constructScratchPad_spec {σ : Type} (a : OneShotZeroAgent σ) :
    a.constructScratchPad [] = []
    ∧ (∀ (step : AgentStep) (steps : List AgentStep),
        a.constructScratchPad (step :: steps)
          = ((step :: steps).map (fun st =>
              st.Action.Log ++ "\nObservation: ".toList ++ st.Observation)).flatten
            ++ "\nThought:".toList)
    ∧ (∀ s1 s2 : AgentStep,
        a.constructScratchPad [s1, s2]
          = s1.Action.Log ++ "\nObservation: ".toList ++ s1.Observation
            ++ s2.Action.Log ++ "\nObservation: ".toList ++ s2.Observation
            ++ "\nThought:".toList) := by
  have hcons : ∀ (step : AgentStep) (steps : List AgentStep),
      a.constructScratchPad (step :: steps)
        = ((step :: steps).map (fun st =>
            st.Action.Log ++ "\nObservation: ".toList ++ st.Observation)).flatten
          ++ "\nThought:".toList := by
    intro step steps
    have hf := foldl_scratchPad
      (fun st => st.Action.Log ++ "\nObservation: ".toList ++ st.Observation)
      (step :: steps) []
    have hcue : "\n".toList ++ "Thought:".toList = "\nThought:".toList := by decide
    unfold OneShotZeroAgent.constructScratchPad
    rw [if_pos (by simp), hcue]
    simp only [List.append_assoc] at hf ⊢
    rw [hf]
    simp
  refine ⟨rfl, hcons, ?_⟩
  intro s1 s2
  rw [hcons]
  simp [List.append_assoc]

/-! ### The agent's keys and options -/

theorem foldl_skip_eq_filter (p : Str → Prop) [DecidablePred p] :
    ∀ (l init : List Str),
      l.foldl (fun agentInput v => if p v then agentInput else agentInput ++ [v]) init
        = init ++ l.filter (fun v => decide (¬ p v))
  | [], init => by simp
  | v :: l, init => by
    rw [List.foldl_cons, foldl_skip_eq_filter p l]
    by_cases hv : p v <;> simp [hv]

/-- C11: `GetInputKeys` returns the chain's input keys without the occurrences of
`agent_scratchpad` and `today`, the other keys in their order and number; neither of the
two keys is in the result. -/
theorem GetInputKeys_spec {σ : Type} (a : OneShotZeroAgent σ) :
    a.GetInputKeys
        = a.Chain.GetInputKeys.filter
            (fun v => decide (¬ (v = "agent_scratchpad".toList ∨ v = "today".toList)))
    ∧ "agent_scratchpad".toList ∉ a.GetInputKeys
    ∧ "today".toList ∉ a.GetInputKeys := by
  have h : a.GetInputKeys
      = a.Chain.GetInputKeys.filter
          (fun v => decide (¬ (v = "agent_scratchpad".toList ∨ v = "today".toList))) := by
    unfold OneShotZeroAgent.GetInputKeys
    simp only
    rw [foldl_skip_eq_filter (fun v => v = "agent_scratchpad".toList ∨ v = "today".toList)]
    rfl
  refine ⟨h, ?_, ?_⟩
  · rw [h]
    intro hmem
    have := (List.mem_filter.mp hmem).2
    simp at this
  · rw [h]
    intro hmem
    have := (List.mem_filter.mp hmem).2
    simp at this

/-- C19: `checkOptions` gives the key `output` when the options hold no string under
`outputKey`, and the given string otherwise; the agent built by `NewOneShotAgent` returns
that key as its only output key, and every finish produced by its `parseOutput` has exactly
that key in its return values. -/
theorem checkOptions_outputKey {σ : Type} (newLLMChain : List Tool → Chain σ)
    (tools : List Tool) (opts : GoMap) :
    ((∀ s, opts.lookup "outputKey".toList ≠ some (Value.str s)) →
        (checkOptions opts).outputKey = "output".toList)
    ∧ (∀ s, opts.lookup "outputKey".toList = some (Value.str s) →
        (checkOptions opts).outputKey = s)
    ∧ (NewOneShotAgent newLLMChain tools opts).GetOutputKeys = [(checkOptions opts).outputKey]
    ∧ (∀ output finish,
        ((NewOneShotAgent newLLMChain tools opts).parseOutput output).2.1 = some finish →
          finish.ReturnValues.keys = (NewOneShotAgent newLLMChain tools opts).GetOutputKeys) := by
  refine ⟨?_, ?_, rfl, ?_⟩
  · intro h
    unfold checkOptions
    cases hl : opts.lookup "outputKey".toList with
    | none => rfl
    | some v =>
      cases v with
      | str s => exact absurd hl (h s)
      | int n => rfl
      | bool b => rfl
      | null => rfl
  · intro s h
    unfold checkOptions
    rw [h]
  · intro output finish h
    unfold OneShotZeroAgent.parseOutput at h
    split at h
    · have hf := Option.some.inj h
      rw [← hf]
      rfl
    · split at h <;> simp at h

/-! ### Planning -/

theorem foldl_insert_str_lookup (k : Str) :
    ∀ (l : List (Sigma fun _ : Str => Str)) (dst : GoMap), l.NodupKeys →
      (l.foldl (fun m e => m.insert e.1 (Value.str e.2)) dst).lookup k
        = (match l.dlookup k with
           | some v => some (Value.str v)
           | none => dst.lookup k)
  | [], dst, _ => by simp
  | e :: l, dst, h => by
    obtain ⟨a, b⟩ := e
    rw [List.nodupKeys_cons] at h
    rw [List.foldl_cons, foldl_insert_str_lookup k l _ h.2]
    by_cases hk : k = a
    · subst hk
      have hnone : l.dlookup k = none := List.dlookup_eq_none.mpr h.1
      simp [hnone, AList.lookup_insert]
    · have hd : List.dlookup k (⟨a, b⟩ :: l) = List.dlookup k l :=
        List.dlookup_cons_ne l (s := ⟨a, b⟩) hk
      rw [hd, AList.lookup_insert_ne hk]

/-- C12: `Plan` runs `chains.Call` on the agent's chain with the map `fullInputs`, in which
`agent_scratchpad` is the scratchpad of the steps, `today` is the date text, and every
other key has the caller's value (and is absent when the caller has none); the options
set the stop words `\nObservation:` and `\n\tObservation:` and the given callback list;
the world after `Plan` is the world after that call; and when the call fails, `Plan`
returns its error with no action and no finish. -/
theorem Plan_calls_chain {σ : Type} (E : ChainsErrors) (a : OneShotZeroAgent σ)
    (steps : List AgentStep) (inputs : StrMap) (callbacks : CallbackList) (now : Str)
    (w : World σ) :
    (a.fullInputs steps inputs now).lookup "agent_scratchpad".toList
        = some (Value.str (a.constructScratchPad steps))
    ∧ (a.fullInputs steps inputs now).lookup "today".toList = some (Value.str now)
    ∧ (∀ k, k ≠ "agent_scratchpad".toList → k ≠ "today".toList →
        (a.fullInputs steps inputs now).lookup k = (inputs.lookup k).map Value.str)
    ∧ (∀ d : ChainCallOptions,
        ([WithStopWords ["\nObservation:".toList, "\n\tObservation:".toList],
          WithCallbacks callbacks].foldl (fun o f => f o) d)
          = { StopWords := ["\nObservation:".toList, "\n\tObservation:".toList],
              Callbacks := callbacks })
    ∧ (a.Plan E steps inputs callbacks now w).2
        = (Call E a.Chain (a.fullInputs steps inputs now)
            [WithStopWords ["\nObservation:".toList, "\n\tObservation:".toList],
             WithCallbacks callbacks] w).2
    ∧ (∀ err,
        (Call E a.Chain (a.fullInputs steps inputs now)
            [WithStopWords ["\nObservation:".toList, "\n\tObservation:".toList],
             WithCallbacks callbacks] w).1 = Except.error err →
          (a.Plan E steps inputs callbacks now w).1 = ([], none, some err)) := by
  have hne : "agent_scratchpad".toList ≠ "today".toList := by decide
  refine ⟨?_, ?_, ?_, ?_, ?_, ?_⟩
  · unfold OneShotZeroAgent.fullInputs
    simp only
    rw [AList.lookup_insert_ne hne, AList.lookup_insert]
  · unfold OneShotZeroAgent.fullInputs
    simp only
    rw [AList.lookup_insert]
  · intro k h1 h2
    unfold OneShotZeroAgent.fullInputs
    simp only
    rw [AList.lookup_insert_ne h2, AList.lookup_insert_ne h1,
      foldl_insert_str_lookup k inputs.entries ∅ inputs.nodupKeys]
    show _ = Option.map Value.str (List.dlookup k inputs.entries)
    cases List.dlookup k inputs.entries <;> simp
  · intro d
    rfl
  · unfold OneShotZeroAgent.Plan
    rcases Call E a.Chain (a.fullInputs steps inputs now)
      [WithStopWords ["\nObservation:".toList, "\n\tObservation:".toList],
       WithCallbacks callbacks] w with ⟨r, w1⟩
    cases r with
    | error err => rfl
    | ok resp =>
      simp only
      split <;> rfl
  · intro err herr
    unfold OneShotZeroAgent.Plan
    rcases hc : Call E a.Chain (a.fullInputs steps inputs now)
      [WithStopWords ["\nObservation:".toList, "\n\tObservation:".toList],
       WithCallbacks callbacks] w with ⟨r, w1⟩
    rw [hc] at herr
    cases r with
    | error e =>
      have he : e = err := by simpa using herr
      rw [he]
    | ok resp => simp at herr

/-- C13: when the chain invocation inside `Plan` succeeds with the map `resp`, `Plan`
returns `ErrInvalidChainReturnType` with no action and no finish if `resp` has no string
under `text`, and the result of `parseOutput` on that string otherwise. -/
theorem Plan_text_output {σ : Type} (E : ChainsErrors) (a : OneShotZeroAgent σ)
    (steps : List AgentStep) (inputs : StrMap) (callbacks : CallbackList) (now : Str)
    (w w1 : World σ) (resp : GoMap)
    (hcall : Call E a.Chain (a.fullInputs steps inputs now)
        [WithStopWords ["\nObservation:".toList, "\n\tObservation:".toList],
         WithCallbacks callbacks] w = (Except.ok resp, w1)) :
    ((∀ s, resp.lookup "text".toList ≠ some (Value.str s)) →
        a.Plan E steps inputs callbacks now w
          = (([], none, some ErrInvalidChainReturnType), w1))
    ∧ (∀ output, resp.lookup "text".toList = some (Value.str output) →
        a.Plan E steps inputs callbacks now w = (a.parseOutput output, w1)) := by
  constructor
  · intro h
    have hplan : a.Plan E steps inputs callbacks now w
        = (match resp.lookup "text".toList with
           | some (Value.str output) => (a.parseOutput output, w1)
           | _ => (([], none, some ErrInvalidChainReturnType), w1)) := by
      unfold OneShotZeroAgent.Plan
      rw [hcall]
    rw [hplan]
    cases hl : resp.lookup "text".toList with
    | none => rfl
    | some v =>
      cases v with
      | str s => exact absurd hl (h s)
      | int n => rfl
      | bool b => rfl
      | null => rfl
  · intro output h
    have hplan : a.Plan E steps inputs callbacks now w
        = (match resp.lookup "text".toList with
           | some (Value.str output) => (a.parseOutput output, w1)
           | _ => (([], none, some ErrInvalidChainReturnType), w1)) := by
      unfold OneShotZeroAgent.Plan
      rw [hcall]
    rw [hplan, h]

/-- C13 at a concrete agent: `sampleAgent` planning its first step. -/
theorem Plan_text_output_witness :
    ((∀ s, (AList.singleton "text".toList (Value.str "42".toList) : GoMap).lookup "text".toList
          ≠ some (Value.str s)) →
        sampleAgent.Plan sampleErrors [] sampleQuestion [] "January 02, 2006".toList freshWorld
          = (([], none, some ErrInvalidChainReturnType),
             (Call sampleErrors sampleAgent.Chain
               (sampleAgent.fullInputs [] sampleQuestion "January 02, 2006".toList)
               [WithStopWords ["\nObservation:".toList, "\n\tObservation:".toList],
                WithCallbacks []] freshWorld).2))
    ∧ (∀ output,
        (AList.singleton "text".toList (Value.str "42".toList) : GoMap).lookup "text".toList
          = some (Value.str output) →
        sampleAgent.Plan sampleErrors [] sampleQuestion [] "January 02, 2006".toList freshWorld
          = (sampleAgent.parseOutput output,
             (Call sampleErrors sampleAgent.Chain
               (sampleAgent.fullInputs [] sampleQuestion "January 02, 2006".toList)
               [WithStopWords ["\nObservation:".toList, "\n\tObservation:".toList],
                WithCallbacks []] freshWorld).2)) :=
  Plan_text_output sampleErrors sampleAgent [] sampleQuestion [] "January 02, 2006".toList
    freshWorld _ (AList.singleton "text".toList (Value.str "42".toList)) rfl

/-- C14: `chains.Run` fails with `ErrMultipleInputsInRun` when the chain does not declare
exactly one input key, else with `ErrMultipleOutputsInRun` when it does not declare exactly
one output key, both times leaving the world untouched; with the sole keys `ik` and `ok` it
runs `chains.Call` on the one-entry map from `ik` to the input, passes an error of that
call on, returns the value under `ok` when it is a string, and fails with
`ErrWrongOutputTypeInRun` when it is not. -/
theorem Run_spec {σ : Type} (E : ChainsErrors) (c : Chain σ) (input : Str)
    (options : List ChainCallOption) (w : World σ) :
    (c.GetInputKeys.length ≠ 1 →
        Run E c input options w = (Except.error E.ErrMultipleInputsInRun, w))
    ∧ (c.GetInputKeys.length = 1 → c.GetOutputKeys.length ≠ 1 →
        Run E c input options w = (Except.error E.ErrMultipleOutputsInRun, w))
    ∧ (∀ ik ok, c.GetInputKeys = [ik] → c.GetOutputKeys = [ok] →
        Run E c input options w
          = (match Call E c (AList.singleton ik (Value.str input)) options w with
             | (Except.error err, w1) => (Except.error err, w1)
             | (Except.ok outputValues, w1) =>
               match outputValues.lookup ok with
               | some (Value.str outputValue) => (Except.ok outputValue, w1)
               | _ => (Except.error E.ErrWrongOutputTypeInRun, w1))) := by
  refine ⟨?_, ?_, ?_⟩
  · intro h
    simp [Run, h]
  · intro h1 h2
    simp [Run, h1, h2]
  · intro ik ok hi ho
    have hik : c.GetInputKeys.getD 0 [] = ik := by rw [hi]; rfl
    have hok : c.GetOutputKeys.getD 0 [] = ok := by rw [ho]; rfl
    have h1 : ¬ (c.GetInputKeys.length ≠ 1) := by simp [hi]
    have h2 : ¬ (c.GetOutputKeys.length ≠ 1) := by simp [ho]
    unfold Run
    simp only
    rw [if_neg h1, if_neg h2, hik, hok]

/-! ### The callback manager -/

theorem foldl_receive {R : Type} (call : HookCall R) :
    ∀ (hs : CallbackList) (log : List (Delivery R)),
      hs.foldl (fun log handler => handler.receive call log) log
        = log ++ hs.map (fun handler => ⟨handler, call⟩)
  | [], log => by simp
  | h :: hs, log => by
    rw [List.foldl_cons, foldl_receive call hs]
    simp [CallbackHandler.receive]

/-- C15: emitting any of the fourteen events on a manager built from the handler list `hs`
appends to the log of deliveries exactly one call per handler of `hs`, in list order, each
being the emitted call with its arguments; with no handler the log is unchanged. -/
theorem callbackManager_fan_out {R : Type} (hs : CallbackList) (call : HookCall R)
    (log : List (Delivery R)) :
    (NewCallbackManager hs).emit call log = log ++ hs.map (fun handler => ⟨handler, call⟩)
    ∧ (NewCallbackManager []).emit call log = log := by
  have hgen : ∀ hs : CallbackList,
      (NewCallbackManager hs).emit call log
        = log ++ hs.map (fun handler => ⟨handler, call⟩) := by
    intro hs
    cases hs with
    | nil =>
      cases call <;>
        simp [callbackManager.emit, NewCallbackManager, callbackManager.HandleLLMStart,
          callbackManager.HandleLLMNewToken, callbackManager.HandleLLMError,
          callbackManager.HandleLLMEnd, callbackManager.HandleChatModelStart,
          callbackManager.HandleChainStart, callbackManager.HandleChainError,
          callbackManager.HandleChainEnd, callbackManager.HandleToolStart,
          callbackManager.HandleToolError, callbackManager.HandleToolEnd,
          callbackManager.HandleText, callbackManager.HandleAgentAction,
          callbackManager.HandleAgentEnd]
    | cons h hs =>
      cases call <;>
        simp only [callbackManager.emit, NewCallbackManager, callbackManager.HandleLLMStart,
          callbackManager.HandleLLMNewToken, callbackManager.HandleLLMError,
          callbackManager.HandleLLMEnd, callbackManager.HandleChatModelStart,
          callbackManager.HandleChainStart, callbackManager.HandleChainError,
          callbackManager.HandleChainEnd, callbackManager.HandleToolStart,
          callbackManager.HandleToolError, callbackManager.HandleToolEnd,
          callbackManager.HandleText, callbackManager.HandleAgentAction,
          callbackManager.HandleAgentEnd, List.length_cons, Nat.succ_ne_zero, if_false,
          foldl_receive]
  exact ⟨hgen hs, by simpa using hgen []⟩

/-! ### Streaming -/

theorem recvLoop_all_ok {R θ : Type} (firstText : R → Option Str)
    (f : Str → θ → Option GoError × θ) (hf : ∀ chunk s, (f chunk s).1 = none) :
    ∀ (resps : List R) (texts : List Str) (output : Str) (h : TokenLog θ),
      resps.map firstText = texts.map some →
      recvLoop firstText f (resps.map Except.ok) output h
        = (Except.ok (output ++ texts.flatten),
           ⟨texts.foldl (fun s t => (f t s).2) h.state,
            h.calls ++ texts.map (fun t => (t, none))⟩)
  | [], texts, output, h, ht => by
    cases texts with
    | nil => simp [recvLoop]
    | cons t ts => simp at ht
  | r :: resps, texts, output, h, ht => by
    cases texts with
    | nil => simp at ht
    | cons t ts =>
      simp only [List.map_cons, List.cons.injEq] at ht
      obtain ⟨hr, hrest⟩ := ht
      have hcall : f t h.state = (none, (f t h.state).2) :=
        Prod.ext (hf t h.state) rfl
      have ih := recvLoop_all_ok firstText f hf resps ts (output ++ t)
        ⟨(f t h.state).2, h.calls ++ [(t, none)]⟩ hrest
      rw [List.map_cons, recvLoop, hr]
      simp only
      rw [hcall]
      simp only
      rw [ih]
      simp [List.append_assoc]

theorem recvLoop_error_last {R θ : Type} (firstText : R → Option Str)
    (f : Str → θ → Option GoError × θ) (chunk : Str) (e : GoError) :
    ∀ (stream : List (Except GoError R)) (output : Str) (h : TokenLog θ),
      (∀ x ∈ h.calls, x.2 = none) →
      (chunk, some e) ∈ (recvLoop firstText f stream output h).2.calls →
        (recvLoop firstText f stream output h).1 = Except.error e
        ∧ ∃ pre, (recvLoop firstText f stream output h).2.calls = pre ++ [(chunk, some e)]
            ∧ ∀ x ∈ pre, x.2 = none
  | [], output, h, hclean, hmem => by
    simp only [recvLoop] at hmem
    exact absurd (hclean _ hmem) (by simp)
  | Except.error err :: _, output, h, hclean, hmem => by
    simp only [recvLoop] at hmem
    exact absurd (hclean _ hmem) (by simp)
  | Except.ok resp :: rest, output, h, hclean, hmem => by
    rw [recvLoop] at hmem ⊢
    cases hft : firstText resp with
    | none =>
      rw [hft] at hmem
      exact absurd (hclean _ hmem) (by simp)
    | some text =>
      rw [hft] at hmem
      simp only at hmem ⊢
      rcases hcall : f text h.state with ⟨r, s⟩
      rw [hcall] at hmem
      cases r with
      | some err =>
        simp only at hmem ⊢
        rcases List.mem_append.mp hmem with hin | hin
        · exact absurd (hclean _ hin) (by simp)
        · have heq : (chunk, some e) = (text, some err) := by simpa using hin
          have h1 : chunk = text := (Prod.mk.inj heq).1
          have h2 : e = err := Option.some.inj (Prod.mk.inj heq).2
          subst h1 h2
          exact ⟨rfl, h.calls, rfl, hclean⟩
      | none =>
        simp only at hmem ⊢
        refine recvLoop_error_last firstText f chunk e rest (output ++ text)
          ⟨s, h.calls ++ [(text, none)]⟩ ?_ hmem
        intro x hx
        rcases List.mem_append.mp hx with hin | hin
        · exact hclean x hin
        · have : x = (text, none) := by simpa using hin
          rw [this]

/-- C16: with a streaming token handler `f` that never fails, when the provider stream
yields the responses `resps` and then ends, every response having a first choice, the
texts of the first choices being `texts`: the handler is called once per response, in
order, with that text, and `Generate` (and likewise `Chat`) returns one generation whose
text is the concatenation of `texts`. -/
theorem streaming_concatenates_fragments {F32 θ : Type} (o : LLM F32)
    (options : List (CallOption θ)) (f : Str → θ → Option GoError × θ)
    (hopt : (applyCallOptions options).StreamingFunc = some f)
    (hf : ∀ chunk s, (f chunk s).1 = none) :
    (∀ (p : Str) (ps : List Str) (resps : List CompletionResponse) (texts : List Str)
        (h : TokenLog θ),
        o.client.CreateCompletionStream (completionRequest (applyCallOptions options) p)
          = Except.ok (resps.map Except.ok) →
        resps.map (fun resp => resp.Choices.head?.map (·.Text)) = texts.map some →
        o.Generate (p :: ps) options h
          = some (Except.ok [{ Text := texts.flatten }],
              ⟨texts.foldl (fun s t => (f t s).2) h.state,
               h.calls ++ texts.map (fun t => (t, none))⟩))
    ∧ (∀ (messages : List ChatMessage) (resps : List ChatCompletionStreamResponse)
        (texts : List Str) (h : TokenLog θ),
        o.client.CreateChatCompletionStream
            (chatCompletionRequest (applyCallOptions options) messages)
          = Except.ok (resps.map Except.ok) →
        resps.map (fun resp => resp.Choices.head?.map (·.Delta.Content)) = texts.map some →
        o.Chat messages options h
          = (Except.ok { Message := { Text := texts.flatten } },
              ⟨texts.foldl (fun s t => (f t s).2) h.state,
               h.calls ++ texts.map (fun t => (t, none))⟩)) := by
  constructor
  · intro p ps resps texts h hstream htexts
    have hloop := recvLoop_all_ok
      (fun resp : CompletionResponse => resp.Choices.head?.map (·.Text)) f hf resps texts [] h
      htexts
    unfold LLM.Generate
    simp only [hopt, hstream, hloop, List.nil_append]
  · intro messages resps texts h hstream htexts
    have hloop := recvLoop_all_ok
      (fun resp : ChatCompletionStreamResponse => resp.Choices.head?.map (·.Delta.Content))
      f hf resps texts [] h htexts
    unfold LLM.Chat
    simp only [hopt, hstream, hloop, List.nil_append]

/-- C16 at a concrete provider: three fragments reach the counting handler, and the result
is their concatenation. -/
theorem streaming_concatenates_fragments_witness :
    sampleLLM.Generate ["Say hello".toList] [WithStreamingFunc countingHandler] ⟨0, []⟩
        = some (Except.ok [{ Text := "Hello!".toList }],
            ⟨3, [("Hel".toList, none), ("lo".toList, none), ("!".toList, none)]⟩)
    ∧ sampleLLM.Chat [{ GetType := ChatMessageType.ChatMessageTypeHuman,
                        GetText := "Say hi".toList }]
          [WithStreamingFunc countingHandler] ⟨0, []⟩
        = (Except.ok { Message := { Text := "Hi!".toList } },
            ⟨3, [("H".toList, none), ("i".toList, none), ("!".toList, none)]⟩) :=
  ⟨(streaming_concatenates_fragments sampleLLM [WithStreamingFunc countingHandler]
      countingHandler rfl (fun _ _ => rfl)).1 "Say hello".toList []
      [{ Choices := [{ Text := "Hel".toList }] },
       { Choices := [{ Text := "lo".toList }, { Text := "unused".toList }] },
       { Choices := [{ Text := "!".toList }] }]
      ["Hel".toList, "lo".toList, "!".toList] ⟨0, []⟩ rfl rfl,
   (streaming_concatenates_fragments sampleLLM [WithStreamingFunc countingHandler]
      countingHandler rfl (fun _ _ => rfl)).2
      [{ GetType := ChatMessageType.ChatMessageTypeHuman, GetText := "Say hi".toList }]
      [{ Choices := [{ Delta := { Content := "H".toList } }] },
       { Choices := [{ Delta := { Content := "i".toList } }] },
       { Choices := [{ Delta := { Content := "!".toList } }] }]
      ["H".toList, "i".toList, "!".toList] ⟨0, []⟩ rfl rfl⟩

/-- In a run of `Generate` (and likewise of `Chat`) that starts with an empty log of handler
calls, a handler call that returned the error `e` is the last one in the log, all calls
before it returned no error, and the run returns the error `e` and no generation. -/
theorem handler_error_is_last_call {F32 θ : Type} (o : LLM F32)
    (options : List (CallOption θ)) (s0 : θ) (chunk : Str) (e : GoError) :
    (∀ (prompts : List Str) (r : Except GoError (List Generation) × TokenLog θ),
        o.Generate prompts options ⟨s0, []⟩ = some r →
        (chunk, some e) ∈ r.2.calls →
          r.1 = Except.error e
          ∧ ∃ pre, r.2.calls = pre ++ [(chunk, some e)] ∧ ∀ x ∈ pre, x.2 = none)
    ∧ (∀ (messages : List ChatMessage),
        (chunk, some e) ∈ (o.Chat messages options ⟨s0, []⟩).2.calls →
          (o.Chat messages options ⟨s0, []⟩).1 = Except.error e
          ∧ ∃ pre, (o.Chat messages options ⟨s0, []⟩).2.calls = pre ++ [(chunk, some e)]
              ∧ ∀ x ∈ pre, x.2 = none) := by
  have hclean : ∀ x ∈ (⟨s0, []⟩ : TokenLog θ).calls, x.2 = none := by simp
  constructor
  · intro prompts r hrun hmem
    unfold LLM.Generate at hrun
    cases prompts with
    | nil => simp at hrun
    | cons p ps =>
      simp only at hrun
      cases hopt : (applyCallOptions options).StreamingFunc with
      | none =>
        rw [hopt] at hrun
        simp only at hrun
        cases hc : o.client.CreateCompletion (completionRequest (applyCallOptions options) p) with
        | error err =>
          rw [hc] at hrun
          have hr := (Option.some.inj hrun).symm
          rw [hr] at hmem
          simp at hmem
        | ok resp =>
          rw [hc] at hrun
          cases hch : resp.Choices with
          | nil =>
            simp only [hch] at hrun
            have hr := (Option.some.inj hrun).symm
            rw [hr] at hmem
            simp at hmem
          | cons c cs =>
            simp only [hch] at hrun
            have hr := (Option.some.inj hrun).symm
            rw [hr] at hmem
            simp at hmem
      | some f =>
        rw [hopt] at hrun
        simp only at hrun
        cases hc : o.client.CreateCompletionStream
            (completionRequest (applyCallOptions options) p) with
        | error err =>
          rw [hc] at hrun
          have hr := (Option.some.inj hrun).symm
          rw [hr] at hmem
          simp at hmem
        | ok stream =>
          rw [hc] at hrun
          simp only at hrun
          have hlast := recvLoop_error_last
            (fun resp : CompletionResponse => resp.Choices.head?.map (·.Text)) f chunk e
            stream [] ⟨s0, []⟩ hclean
          rcases hloop : recvLoop
            (fun resp : CompletionResponse => resp.Choices.head?.map (·.Text)) f
            stream [] ⟨s0, []⟩ with ⟨res, h1⟩
          rw [hloop] at hrun hlast
          cases res with
          | error err =>
            have hr := (Option.some.inj hrun).symm
            rw [hr] at hmem ⊢
            obtain ⟨herr, pre, hpre⟩ := hlast hmem
            have he : err = e := by simpa using herr
            exact ⟨by rw [he], pre, hpre⟩
          | ok output =>
            have hr := (Option.some.inj hrun).symm
            rw [hr] at hmem
            have := (hlast hmem).1
            simp at this
  · intro messages hmem
    unfold LLM.Chat at hmem ⊢
    simp only at hmem ⊢
    cases hopt : (applyCallOptions options).StreamingFunc with
    | none =>
      rw [hopt] at hmem
      simp only at hmem
      cases hc : o.client.CreateChatCompletion
          (chatCompletionRequest (applyCallOptions options) messages) with
      | error err =>
        rw [hc] at hmem
        simp at hmem
      | ok resp =>
        rw [hc] at hmem
        cases hch : resp.Choices with
        | nil =>
          simp [hch] at hmem
        | cons c cs =>
          simp [hch] at hmem
    | some f =>
      simp only [hopt] at hmem ⊢
      cases hc : o.client.CreateChatCompletionStream
          (chatCompletionRequest (applyCallOptions options) messages) with
      | error err =>
        rw [hc] at hmem
        simp at hmem
      | ok stream =>
        simp only [hc] at hmem ⊢
        have hlast := recvLoop_error_last
          (fun resp : ChatCompletionStreamResponse => resp.Choices.head?.map (·.Delta.Content))
          f chunk e stream [] ⟨s0, []⟩ hclean
        rcases hloop : recvLoop
          (fun resp : ChatCompletionStreamResponse => resp.Choices.head?.map (·.Delta.Content))
          f stream [] ⟨s0, []⟩ with ⟨res, h1⟩
        simp only [hloop] at hmem hlast ⊢
        cases res with
        | error err =>
          obtain ⟨herr, pre, hpre⟩ := hlast hmem
          have he : err = e := by simpa using herr
          exact ⟨by rw [he], pre, hpre⟩
        | ok output =>
          have := (hlast hmem).1
          simp at this

/-- The receive loop on a stream whose responses `pre` are all accepted by the handler and
whose next response makes the handler fail: the loop returns the handler's error, and the
log gains the accepted fragments and the failing one, and nothing of what follows. -/
theorem recvLoop_fails_at {R θ : Type} (firstText : R → Option Str)
    (f : Str → θ → Option GoError × θ) (resp : R) (post : List (Except GoError R))
    (text : Str) (err : GoError) (s1 : θ) (htext : firstText resp = some text) :
    ∀ (pre : List R) (preTexts : List Str) (output : Str) (h : TokenLog θ),
      pre.map firstText = preTexts.map some →
      (∀ i, i < preTexts.length →
        (f (preTexts.getD i []) ((preTexts.take i).foldl (fun s t => (f t s).2) h.state)).1
          = none) →
      f text (preTexts.foldl (fun s t => (f t s).2) h.state) = (some err, s1) →
      recvLoop firstText f (pre.map Except.ok ++ Except.ok resp :: post) output h
        = (Except.error err,
           ⟨s1, h.calls ++ preTexts.map (fun t => (t, none)) ++ [(text, some err)]⟩)
  | [], preTexts, output, h, ht, _, hfail => by
    cases preTexts with
    | cons t ts => simp at ht
    | nil =>
      simp only [List.foldl_nil] at hfail
      simp only [List.map_nil, List.nil_append, List.append_nil]
      rw [recvLoop, htext]
      simp only
      rw [hfail]
  | r :: pre, preTexts, output, h, ht, hpre, hfail => by
    cases preTexts with
    | nil => simp at ht
    | cons t ts =>
      simp only [List.map_cons, List.cons.injEq] at ht
      obtain ⟨hr, hrest⟩ := ht
      have h0 : (f t h.state).1 = none := hpre 0 (by simp)
      have hcall : f t h.state = (none, (f t h.state).2) := Prod.ext h0 rfl
      have hpre2 : ∀ i, i < ts.length →
          (f (ts.getD i []) ((ts.take i).foldl (fun s t => (f t s).2) (f t h.state).2)).1
            = none := by
        intro i hi
        have := hpre (i + 1) (by simp only [List.length_cons]; omega)
        rw [List.getD_cons_succ, List.take_succ_cons, List.foldl_cons] at this
        exact this
      have ih := recvLoop_fails_at firstText f resp post text err s1 htext pre ts
        (output ++ t) ⟨(f t h.state).2, h.calls ++ [(t, none)]⟩ hrest hpre2
        (by simpa only [List.foldl_cons] using hfail)
      rw [List.map_cons, List.cons_append, recvLoop, hr]
      simp only
      rw [hcall]
      simp only
      rw [ih]
      simp [List.append_assoc]

/-- C17: in streaming mode, when the provider stream yields the responses `pre`, whose
fragments the token handler accepts one after the other, and then a response on whose
fragment `text` the handler returns the error `err`, `Generate` (and likewise `Chat`)
returns exactly `err` and no generation, and the handler's log gains the accepted
fragments and `text` and nothing of what the stream holds after it. Moreover, in every
run started with an empty log, a handler call that returned an error is the last call in
the log and its error is the result of the run. -/
theorem streaming_handler_error_aborts {F32 θ : Type} (o : LLM F32)
    (options : List (CallOption θ)) (f : Str → θ → Option GoError × θ)
    (hopt : (applyCallOptions options).StreamingFunc = some f) :
    (∀ (p : Str) (ps : List Str) (pre : List CompletionResponse) (resp : CompletionResponse)
        (post : List (Except GoError CompletionResponse)) (preTexts : List Str) (text : Str)
        (err : GoError) (s1 : θ) (h : TokenLog θ),
        o.client.CreateCompletionStream (completionRequest (applyCallOptions options) p)
          = Except.ok (pre.map Except.ok ++ Except.ok resp :: post) →
        pre.map (fun resp => resp.Choices.head?.map (·.Text)) = preTexts.map some →
        resp.Choices.head?.map (·.Text) = some text →
        (∀ i, i < preTexts.length →
          (f (preTexts.getD i []) ((preTexts.take i).foldl (fun s t => (f t s).2) h.state)).1
            = none) →
        f text (preTexts.foldl (fun s t => (f t s).2) h.state) = (some err, s1) →
        o.Generate (p :: ps) options h
          = some (Except.error err,
              ⟨s1, h.calls ++ preTexts.map (fun t => (t, none)) ++ [(text, some err)]⟩))
    ∧ (∀ (messages : List ChatMessage) (pre : List ChatCompletionStreamResponse)
        (resp : ChatCompletionStreamResponse)
        (post : List (Except GoError ChatCompletionStreamResponse)) (preTexts : List Str)
        (text : Str) (err : GoError) (s1 : θ) (h : TokenLog θ),
        o.client.CreateChatCompletionStream
            (chatCompletionRequest (applyCallOptions options) messages)
          = Except.ok (pre.map Except.ok ++ Except.ok resp :: post) →
        pre.map (fun resp => resp.Choices.head?.map (·.Delta.Content)) = preTexts.map some →
        resp.Choices.head?.map (·.Delta.Content) = some text →
        (∀ i, i < preTexts.length →
          (f (preTexts.getD i []) ((preTexts.take i).foldl (fun s t => (f t s).2) h.state)).1
            = none) →
        f text (preTexts.foldl (fun s t => (f t s).2) h.state) = (some err, s1) →
        o.Chat messages options h
          = (Except.error err,
              ⟨s1, h.calls ++ preTexts.map (fun t => (t, none)) ++ [(text, some err)]⟩))
    ∧ (∀ (s0 : θ) (chunk : Str) (e : GoError) (prompts : List Str)
        (r : Except GoError (List Generation) × TokenLog θ),
        o.Generate prompts options ⟨s0, []⟩ = some r →
        (chunk, some e) ∈ r.2.calls →
          r.1 = Except.error e
          ∧ ∃ before, r.2.calls = before ++ [(chunk, some e)] ∧ ∀ x ∈ before, x.2 = none)
    ∧ (∀ (s0 : θ) (chunk : Str) (e : GoError) (messages : List ChatMessage),
        (chunk, some e) ∈ (o.Chat messages options ⟨s0, []⟩).2.calls →
          (o.Chat messages options ⟨s0, []⟩).1 = Except.error e
          ∧ ∃ before, (o.Chat messages options ⟨s0, []⟩).2.calls = before ++ [(chunk, some e)]
              ∧ ∀ x ∈ before, x.2 = none) := by
  refine ⟨?_, ?_, ?_, ?_⟩
  · intro p ps pre resp post preTexts text err s1 h hstream hpreTexts htext hpre hfail
    have hloop := recvLoop_fails_at
      (fun resp : CompletionResponse => resp.Choices.head?.map (·.Text)) f resp post text err s1
      htext pre preTexts [] h hpreTexts hpre hfail
    unfold LLM.Generate
    simp only [hopt, hstream, hloop]
  · intro messages pre resp post preTexts text err s1 h hstream hpreTexts htext hpre hfail
    have hloop := recvLoop_fails_at
      (fun resp : ChatCompletionStreamResponse => resp.Choices.head?.map (·.Delta.Content))
      f resp post text err s1 htext pre preTexts [] h hpreTexts hpre hfail
    unfold LLM.Chat
    simp only [hopt, hstream, hloop]
  · intro s0 chunk e prompts r hrun hmem
    exact (handler_error_is_last_call o options s0 chunk e).1 prompts r hrun hmem
  · intro s0 chunk e messages hmem
    exact (handler_error_is_last_call o options s0 chunk e).2 messages hmem

/-- C17 at a concrete provider, for `Generate` and for `Chat`: the handler accepts the
first of three fragments and fails on the second; the run returns that error, and the
third fragment is not in the log. -/
theorem streaming_handler_error_aborts_witness :
    sampleLLM.Generate ["Say hello".toList] [WithStreamingFunc impatientHandler] ⟨0, []⟩
        = some (Except.error (GoError.new "enough".toList),
            ⟨2, [("Hel".toList, none), ("lo".toList, some (GoError.new "enough".toList))]⟩)
    ∧ sampleLLM.Chat [{ GetType := ChatMessageType.ChatMessageTypeHuman,
                        GetText := "Say hi".toList }]
          [WithStreamingFunc impatientHandler] ⟨0, []⟩
        = (Except.error (GoError.new "enough".toList),
            ⟨2, [("H".toList, none), ("i".toList, some (GoError.new "enough".toList))]⟩) :=
  ⟨(streaming_handler_error_aborts sampleLLM [WithStreamingFunc impatientHandler]
      impatientHandler rfl).1 "Say hello".toList []
      [{ Choices := [{ Text := "Hel".toList }] }]
      { Choices := [{ Text := "lo".toList }, { Text := "unused".toList }] }
      [Except.ok { Choices := [{ Text := "!".toList }] }]
      ["Hel".toList] "lo".toList (GoError.new "enough".toList) 2 ⟨0, []⟩
      rfl rfl rfl (by decide) rfl,
   (streaming_handler_error_aborts sampleLLM [WithStreamingFunc impatientHandler]
      impatientHandler rfl).2.1
      [{ GetType := ChatMessageType.ChatMessageTypeHuman, GetText := "Say hi".toList }]
      [{ Choices := [{ Delta := { Content := "H".toList } }] }]
      { Choices := [{ Delta := { Content := "i".toList } }] }
      [Except.ok { Choices := [{ Delta := { Content := "!".toList } }] }]
      ["H".toList] "i".toList (GoError.new "enough".toList) 2 ⟨0, []⟩
      rfl rfl rfl (by decide) rfl⟩

/-! ### Embeddings -/

theorem set_append_length {β : Type} (v z : β) (t : List β) :
    ∀ pre : List β, (pre ++ z :: t).set pre.length v = pre ++ v :: t
  | [] => rfl
  | a :: pre => by simp [set_append_length v z t pre]

theorem foldl_set_enumFrom {α β : Type} (g : α → β) (zero : β) :
    ∀ (l : List α) (pre : List β),
      (l.enumFrom pre.length).foldl (fun out e => out.set e.1 (g e.2))
          (pre ++ List.replicate l.length zero)
        = pre ++ l.map g
  | [], pre => by simp
  | x :: xs, pre => by
    have ih := foldl_set_enumFrom g zero xs (pre ++ [g x])
    simp only [List.length_append, List.length_singleton, List.append_assoc,
      List.singleton_append] at ih
    rw [List.enumFrom_cons, List.foldl_cons, List.length_cons, List.replicate_succ]
    simp only
    rw [set_append_length, ih, List.map_cons]

/-- The index loop that fills a fresh slice computes the map of `g` over the list. -/
theorem fillByIndex_eq_map {α β : Type} (g : α → β) (zero : β) (l : List α) :
    fillByIndex g zero l = l.map g := by
  have h := foldl_set_enumFrom g zero l []
  simpa [fillByIndex, List.enum] using h

/-- C18, as the code has it: for a known model and a provider answer with `M` entries for
`N` input texts, `M ≠ N`, `CreateEmbedding` returns the empty list and an error, which is
`ErrUnexpectedResponseLength` when `M ≥ 1` and `ErrEmptyResponse` when `M = 0`. -/
theorem CreateEmbedding_length_mismatch {F32 F64 : Type} (o : LLM F32) (float64 : F32 → F64)
    (zero : F64) (stringToEmbeddingModel : Str → Option EmbeddingModel) (model : Str)
    (inputTexts : List Str) (embeddingModel : EmbeddingModel) (resp : EmbeddingResponse F32)
    (hmodel : stringToEmbeddingModel
        (if model.length = 0 then defaultEmbeddingModel else model) = some embeddingModel)
    (hresp : o.client.CreateEmbeddings { Model := embeddingModel, Input := inputTexts }
        = Except.ok resp)
    (hne : resp.Data.length ≠ inputTexts.length) :
    (resp.Data.length ≠ 0 →
        o.CreateEmbedding float64 zero stringToEmbeddingModel model inputTexts
          = ([], some ErrUnexpectedResponseLength))
    ∧ (resp.Data.length = 0 →
        o.CreateEmbedding float64 zero stringToEmbeddingModel model inputTexts
          = ([], some ErrEmptyResponse)) := by
  constructor
  · intro hpos
    have hne2 : inputTexts.length ≠ resp.Data.length := fun h => hne h.symm
    unfold LLM.CreateEmbedding
    simp only [hmodel, hresp, if_neg hpos, if_pos hne2]
  · intro hzero
    unfold LLM.CreateEmbedding
    simp only [hmodel, hresp, if_pos hzero]

/-- C18 at a concrete provider: one vector comes back for two input texts. -/
theorem CreateEmbedding_length_mismatch_witness :
    ((1 : Nat) ≠ 0 →
        (fixedEmbeddingLLM [[1, 2]]).CreateEmbedding Int.ofNat 0 sampleModels []
            ["first".toList, "second".toList]
          = ([], some ErrUnexpectedResponseLength))
    ∧ ((1 : Nat) = 0 →
        (fixedEmbeddingLLM [[1, 2]]).CreateEmbedding Int.ofNat 0 sampleModels []
            ["first".toList, "second".toList]
          = ([], some ErrEmptyResponse)) :=
  CreateEmbedding_length_mismatch (fixedEmbeddingLLM [[1, 2]]) Int.ofNat 0 sampleModels []
    ["first".toList, "second".toList] 1 { Data := [{ Embedding := [1, 2] }] } rfl rfl
    (by decide)

/-- C18 as stated fails: the default model is known, the provider call succeeds with no
entry for one input text, so `M = 0 ≠ 1 = N`, and the error returned is
`ErrEmptyResponse`, which is not `ErrUnexpectedResponseLength` and does not wrap it. -/
theorem CreateEmbedding_empty_answer_counterexample :
    sampleModels defaultEmbeddingModel = some 1
    ∧ (fixedEmbeddingLLM []).client.CreateEmbeddings { Model := 1, Input := ["hello".toList] }
        = Except.ok { Data := [] }
    ∧ ([] : List (Embedding Nat)).length ≠ ["hello".toList].length
    ∧ (fixedEmbeddingLLM []).CreateEmbedding Int.ofNat 0 sampleModels [] ["hello".toList]
        = ([], some ErrEmptyResponse)
    ∧ (fixedEmbeddingLLM []).CreateEmbedding Int.ofNat 0 sampleModels [] ["hello".toList]
        ≠ ([], some ErrUnexpectedResponseLength)
    ∧ ErrEmptyResponse.Is ErrUnexpectedResponseLength = false := by
  refine ⟨by decide, rfl, by decide, rfl, ?_, by decide⟩
  have h : (fixedEmbeddingLLM []).CreateEmbedding Int.ofNat 0 sampleModels [] ["hello".toList]
      = ([], some ErrEmptyResponse) := rfl
  rw [h]
  decide

/-- C20: for a known model, at least one input text, and a provider answer with as many
entries as input texts, `CreateEmbedding` returns no error and the provider's vectors in
the provider's order, each converted element by element: as many vectors as input texts,
the vector at every index as long as the provider's entry at that index. -/
theorem CreateEmbedding_success {F32 F64 : Type} (o : LLM F32) (float64 : F32 → F64)
    (zero : F64) (stringToEmbeddingModel : Str → Option EmbeddingModel) (model : Str)
    (inputTexts : List Str) (embeddingModel : EmbeddingModel) (resp : EmbeddingResponse F32)
    (hmodel : stringToEmbeddingModel
        (if model.length = 0 then defaultEmbeddingModel else model) = some embeddingModel)
    (hresp : o.client.CreateEmbeddings { Model := embeddingModel, Input := inputTexts }
        = Except.ok resp)
    (hpos : 1 ≤ inputTexts.length)
    (heq : resp.Data.length = inputTexts.length) :
    o.CreateEmbedding float64 zero stringToEmbeddingModel model inputTexts
        = (resp.Data.map (fun d => d.Embedding.map float64), none)
    ∧ (o.CreateEmbedding float64 zero stringToEmbeddingModel model inputTexts).1.length
        = inputTexts.length
    ∧ ∀ i : Nat,
        ((o.CreateEmbedding float64 zero stringToEmbeddingModel model inputTexts).1.get? i).map
            List.length
          = (resp.Data.get? i).map (fun d => d.Embedding.length) := by
  have hmain : o.CreateEmbedding float64 zero stringToEmbeddingModel model inputTexts
      = (resp.Data.map (fun d => d.Embedding.map float64), none) := by
    have h1 : ¬ resp.Data.length = 0 := by omega
    have h2 : ¬ inputTexts.length ≠ resp.Data.length := by omega
    have hinner : (fun d : Embedding F32 => fillByIndex float64 zero d.Embedding)
        = fun d => d.Embedding.map float64 := by
      funext d
      exact fillByIndex_eq_map float64 zero d.Embedding
    unfold LLM.CreateEmbedding
    simp only [hmodel, hresp, if_neg h1, if_neg h2, fillByIndex_eq_map, hinner]
  refine ⟨hmain, ?_, ?_⟩
  · rw [hmain]
    simp [heq]
  · intro i
    rw [hmain]
    simp only [List.get?_eq_getElem?, List.getElem?_map, Option.map_map]
    cases resp.Data[i]? <;> simp

/-- C20 at a concrete provider: two input texts, two vectors of two numbers. -/
theorem CreateEmbedding_success_witness :
    sampleLLM.CreateEmbedding Int.ofNat 0 sampleModels [] ["ab".toList, "c".toList]
        = ([[2, 7], [1, 7]], none)
    ∧ (sampleLLM.CreateEmbedding Int.ofNat 0 sampleModels [] ["ab".toList, "c".toList]).1.length
        = ["ab".toList, "c".toList].length
    ∧ ∀ i : Nat,
        ((sampleLLM.CreateEmbedding Int.ofNat 0 sampleModels []
            ["ab".toList, "c".toList]).1.get? i).map List.length
          = (([{ Embedding := [2, 7] }, { Embedding := [1, 7] }] : List (Embedding Nat)).get? i).map
              (fun d => d.Embedding.length) :=
  CreateEmbedding_success sampleLLM Int.ofNat 0 sampleModels [] ["ab".toList, "c".toList] 1
    { Data := [{ Embedding := [2, 7] }, { Embedding := [1, 7] }] } rfl rfl (by decide) rfl

/-! ### Failures inside the chain invocation protocol -/

/-- C21: with valid inputs, a failure of a step of `chains.Call` is its result, with no
map, and ends the protocol: after a failed memory load the trace gains the load only;
after a failed `c.Call` it gains the load and the chain call, and no save; after a failed
`SaveContext` (the outputs being valid) it gains the load, the chain call and the save,
and the outputs are not returned. -/
theorem Call_step_failure {σ : Type} (E : ChainsErrors) (c : Chain σ) (inputValues : GoMap)
    (options : List ChainCallOption) (w : World σ)
    (hin : ∀ k ∈ c.GetInputKeys, (inputValues.lookup k).isSome = true) :
    (∀ e s1,
        c.GetMemory.LoadMemoryVariables inputValues w.state = (Except.error e, s1) →
        Call E c inputValues options w
          = (Except.error e, ⟨s1, w.trace ++ [Event.LoadMemoryVariables inputValues]⟩))
    ∧ (∀ newValues s1 e s2,
        c.GetMemory.LoadMemoryVariables inputValues w.state = (Except.ok newValues, s1) →
        c.Call (rangeInsert newValues (rangeInsert inputValues ∅)) options s1
          = (Except.error e, s2) →
        Call E c inputValues options w
          = (Except.error e,
             ⟨s2, w.trace ++ [Event.LoadMemoryVariables inputValues,
                Event.ChainCall (rangeInsert newValues (rangeInsert inputValues ∅)) options]⟩))
    ∧ (∀ newValues s1 outputValues s2 e s3,
        c.GetMemory.LoadMemoryVariables inputValues w.state = (Except.ok newValues, s1) →
        c.Call (rangeInsert newValues (rangeInsert inputValues ∅)) options s1
          = (Except.ok outputValues, s2) →
        validateOutputs E c outputValues = none →
        c.GetMemory.SaveContext inputValues outputValues s2 = (some e, s3) →
        Call E c inputValues options w
          = (Except.error e,
             ⟨s3, w.trace ++ [Event.LoadMemoryVariables inputValues,
                Event.ChainCall (rangeInsert newValues (rangeInsert inputValues ∅)) options,
                Event.SaveContext inputValues outputValues]⟩)) := by
  refine ⟨?_, ?_, ?_⟩
  · intro e s1 hload
    rw [Call_of_valid_inputs E c inputValues options w hin]
    simp only [Chain.invokeLoad, hload]
  · intro newValues s1 e s2 hload hcall
    rw [Call_of_valid_inputs E c inputValues options w hin]
    simp only [Chain.invokeLoad, hload, Chain.invokeCall, hcall, List.append_assoc,
      List.singleton_append]
  · intro newValues s1 outputValues s2 e s3 hload hcall hvalid hsave
    rw [Call_of_valid_inputs E c inputValues options w hin]
    simp only [Chain.invokeLoad, hload, Chain.invokeCall, hcall, hvalid, Chain.invokeSave,
      hsave, List.append_assoc, List.singleton_append, List.cons_append, List.nil_append]

/-- C21 at a concrete chain: the memory of `readOnlyChain` fails to save, and the call
returns that error after the load, the chain call and the save. -/
theorem Call_step_failure_witness :
    Call sampleErrors readOnlyChain sampleInputs [] freshWorld
      = (Except.error (GoError.new "memory is read-only".toList),
         ⟨3, freshWorld.trace ++ [Event.LoadMemoryVariables sampleInputs,
            Event.ChainCall
              (rangeInsert (AList.singleton "history".toList (Value.str "earlier turns".toList))
                (rangeInsert sampleInputs ∅)) [],
            Event.SaveContext sampleInputs
              (AList.singleton "text".toList (Value.str "42".toList))]⟩) :=
  (Call_step_failure sampleErrors readOnlyChain sampleInputs [] freshWorld (by decide)).2.2
    (AList.singleton "history".toList (Value.str "earlier turns".toList)) 1
    (AList.singleton "text".toList (Value.str "42".toList)) 2
    (GoError.new "memory is read-only".toList) 3 rfl rfl rfl rfl

/-- What a successful `chains.Call` has done: the load, the chain call and the save, the
save with the caller's inputs and the returned outputs. -/
theorem Call_ok_trace {σ : Type} (E : ChainsErrors) (c : Chain σ)
    (inputValues : GoMap) (options : List ChainCallOption) (w w1 : World σ)
    (outputValues : GoMap)
    (hok : Call E c inputValues options w = (Except.ok outputValues, w1)) :
    validateOutputs E c outputValues = none
    ∧ ∃ fullValues,
        w1.trace = w.trace ++ [Event.LoadMemoryVariables inputValues,
          Event.ChainCall fullValues options,
          Event.SaveContext inputValues outputValues] := by
  unfold Call at hok
  cases hv : validateInputs E c inputValues with
  | some err => simp [hv] at hok
  | none =>
    rcases hl : c.GetMemory.LoadMemoryVariables inputValues w.state with ⟨r1, s1⟩
    cases r1 with
    | error err => simp [hv, Chain.invokeLoad, hl] at hok
    | ok newValues =>
      rcases hc : c.Call (rangeInsert newValues (rangeInsert inputValues ∅)) options s1
        with ⟨r2, s2⟩
      cases r2 with
      | error err => simp [hv, Chain.invokeLoad, hl, Chain.invokeCall, hc] at hok
      | ok out =>
        cases hvo : validateOutputs E c out with
        | some err => simp [hv, Chain.invokeLoad, hl, Chain.invokeCall, hc, hvo] at hok
        | none =>
          rcases hs : c.GetMemory.SaveContext inputValues out s2 with ⟨r3, s3⟩
          cases r3 with
          | some err =>
            simp [hv, Chain.invokeLoad, hl, Chain.invokeCall, hc, hvo, Chain.invokeSave, hs]
              at hok
          | none =>
            simp only [hv, Chain.invokeLoad, hl, Chain.invokeCall, hc, hvo, Chain.invokeSave,
              hs, Prod.mk.injEq, Except.ok.injEq] at hok
            obtain ⟨hout, hw⟩ := hok
            subst hout
            refine ⟨hvo, rangeInsert newValues (rangeInsert inputValues ∅), ?_⟩
            rw [← hw]
            simp

theorem firstMissing_none_lookup (values : GoMap) :
    ∀ keys : List Str, firstMissing values keys = none →
      ∀ k ∈ keys, (values.lookup k).isSome = true
  | [], _, k, hk => by simp at hk
  | x :: xs, h, k, hk => by
    unfold firstMissing at h
    split at h
    · rename_i hx
      rcases List.mem_cons.mp hk with rfl | hk
      · exact hx
      · exact firstMissing_none_lookup values xs h k hk
    · simp at h

/-- C23: when the chain declares the single input key `ik` and the single output key `ok`,
`chains.Call` succeeds with `outputValues`, and the value under `ok` is not a string, then
`chains.Run` fails with `ErrWrongOutputTypeInRun` in a world whose trace has gained the
load, the chain call and one `SaveContext` with the input map and `outputValues`, whose
value under `ok` is present and not a string. -/
theorem Run_wrong_type_after_save {σ : Type} (E : ChainsErrors) (c : Chain σ) (input : Str)
    (options : List ChainCallOption) (w w1 : World σ) (ik ok : Str) (outputValues : GoMap)
    (hik : c.GetInputKeys = [ik]) (hok : c.GetOutputKeys = [ok])
    (hcall : Call E c (AList.singleton ik (Value.str input)) options w
      = (Except.ok outputValues, w1))
    (hns : ∀ s, outputValues.lookup ok ≠ some (Value.str s)) :
    Run E c input options w = (Except.error E.ErrWrongOutputTypeInRun, w1)
    ∧ (∃ fullValues,
        w1.trace = w.trace ++ [Event.LoadMemoryVariables (AList.singleton ik (Value.str input)),
          Event.ChainCall fullValues options,
          Event.SaveContext (AList.singleton ik (Value.str input)) outputValues])
    ∧ (∃ v, outputValues.lookup ok = some v ∧ ∀ s, v ≠ Value.str s) := by
  obtain ⟨hvalid, htrace⟩ := Call_ok_trace E c _ options w w1 outputValues hcall
  have hpresent : (outputValues.lookup ok).isSome = true := by
    have hfm : firstMissing outputValues c.GetOutputKeys = none := by
      unfold validateOutputs at hvalid
      cases hf : firstMissing outputValues c.GetOutputKeys with
      | none => rfl
      | some k => simp [hf] at hvalid
    exact firstMissing_none_lookup outputValues c.GetOutputKeys hfm ok (by simp [hok])
  have hikd : c.GetInputKeys.getD 0 [] = ik := by rw [hik]; rfl
  have hokd : c.GetOutputKeys.getD 0 [] = ok := by rw [hok]; rfl
  have h1 : ¬ (c.GetInputKeys.length ≠ 1) := by simp [hik]
  have h2 : ¬ (c.GetOutputKeys.length ≠ 1) := by simp [hok]
  refine ⟨?_, htrace, ?_⟩
  · unfold Run
    simp only
    rw [if_neg h1, if_neg h2, hikd, hokd, hcall]
    show (match outputValues.lookup ok with
          | some (Value.str outputValue) => (Except.ok outputValue, w1)
          | _ => (Except.error E.ErrWrongOutputTypeInRun, w1)) = _
    cases hl : outputValues.lookup ok with
    | none => rfl
    | some v =>
      cases v with
      | str s => exact absurd hl (hns s)
      | int n => rfl
      | bool b => rfl
      | null => rfl
  · cases hl : outputValues.lookup ok with
    | none => simp [hl] at hpresent
    | some v =>
      refine ⟨v, rfl, ?_⟩
      intro s hs
      exact hns s (by rw [hl, hs])

/-- C23 at a concrete chain: `numericChain` puts a number under `text`. -/
theorem Run_wrong_type_after_save_witness :
    Run sampleErrors numericChain "6 times 7".toList [] freshWorld
        = (Except.error sampleErrors.ErrWrongOutputTypeInRun,
           (Call sampleErrors numericChain
             (AList.singleton "question".toList (Value.str "6 times 7".toList)) []
             freshWorld).2)
    ∧ (∃ fullValues,
        (Call sampleErrors numericChain
            (AList.singleton "question".toList (Value.str "6 times 7".toList)) []
            freshWorld).2.trace
          = freshWorld.trace
            ++ [Event.LoadMemoryVariables
                  (AList.singleton "question".toList (Value.str "6 times 7".toList)),
                Event.ChainCall fullValues [],
                Event.SaveContext
                  (AList.singleton "question".toList (Value.str "6 times 7".toList))
                  (AList.singleton "text".toList (Value.int 42))])
    ∧ (∃ v, (AList.singleton "text".toList (Value.int 42) : GoMap).lookup "text".toList = some v
        ∧ ∀ s, v ≠ Value.str s) :=
  Run_wrong_type_after_save sampleErrors numericChain "6 times 7".toList [] freshWorld _
    "question".toList "text".toList (AList.singleton "text".toList (Value.int 42)) rfl rfl rfl
    (fun s h => by
      have h2 : some (Value.int 42) = some (Value.str s) := h
      cases h2)

/-! ### The first prompt -/

/-- C24: `Generate` panics on `prompts[0]` exactly when the prompt list is empty; on a
non-empty list it depends on the first prompt only, which is the prompt of the request
sent to the provider; every successful run returns exactly one generation, which without
streaming holds the text of the provider's first choice; and `Call` never panics and
returns the text of the single generation of `Generate` on its one prompt. -/
theorem Generate_first_prompt_only {F32 θ : Type} (o : LLM F32)
    (options : List (CallOption θ)) (h : TokenLog θ) :
    (∀ prompts, o.Generate prompts options h = none ↔ prompts = [])
    ∧ (∀ p ps, o.Generate (p :: ps) options h = o.Generate [p] options h)
    ∧ (∀ p, (completionRequest (applyCallOptions options) p).Prompt = p)
    ∧ (∀ prompts gens h1,
        o.Generate prompts options h = some (Except.ok gens, h1) → gens.length = 1)
    ∧ (∀ p ps resp choice choices,
        (applyCallOptions options).StreamingFunc = none →
        o.client.CreateCompletion (completionRequest (applyCallOptions options) p)
          = Except.ok resp →
        resp.Choices = choice :: choices →
        o.Generate (p :: ps) options h = some (Except.ok [{ Text := choice.Text }], h))
    ∧ (∀ prompt, o.Call prompt options h ≠ none)
    ∧ (∀ prompt generation h1,
        o.Generate [prompt] options h = some (Except.ok [generation], h1) →
        o.Call prompt options h = some (Except.ok generation.Text, h1)) := by
  have hcons : ∀ p ps, o.Generate (p :: ps) options h ≠ none := by
    intro p ps
    unfold LLM.Generate
    simp only
    cases (applyCallOptions options).StreamingFunc with
    | none =>
      simp only
      cases o.client.CreateCompletion (completionRequest (applyCallOptions options) p) with
      | error err => simp
      | ok resp =>
        simp only
        cases resp.Choices <;> simp
    | some f =>
      simp only
      cases o.client.CreateCompletionStream (completionRequest (applyCallOptions options) p) with
      | error err => simp
      | ok stream =>
        simp only
        rcases hloop : recvLoop
          (fun resp : CompletionResponse => resp.Choices.head?.map (·.Text)) f
          stream [] h with ⟨res, h1⟩
        cases res <;> simp [hloop]
  refine ⟨?_, ?_, ?_, ?_, ?_, ?_, ?_⟩
  · intro prompts
    cases prompts with
    | nil => exact ⟨fun _ => rfl, fun _ => rfl⟩
    | cons p ps => exact ⟨fun hn => absurd hn (hcons p ps), fun hp => by simp at hp⟩
  · intro p ps
    rfl
  · intro p
    rfl
  · intro prompts gens h1 hrun
    cases prompts with
    | nil => simp [LLM.Generate] at hrun
    | cons p ps =>
      unfold LLM.Generate at hrun
      simp only at hrun
      cases hopt : (applyCallOptions options).StreamingFunc with
      | none =>
        rw [hopt] at hrun
        simp only at hrun
        cases hc : o.client.CreateCompletion (completionRequest (applyCallOptions options) p) with
        | error err => simp [hc] at hrun
        | ok resp =>
          rw [hc] at hrun
          cases hch : resp.Choices with
          | nil => simp [hch] at hrun
          | cons c cs =>
            simp only [hch, Option.some.injEq, Prod.mk.injEq, Except.ok.injEq] at hrun
            rw [← hrun.1]
            rfl
      | some f =>
        rw [hopt] at hrun
        simp only at hrun
        cases hc : o.client.CreateCompletionStream
            (completionRequest (applyCallOptions options) p) with
        | error err => simp [hc] at hrun
        | ok stream =>
          rw [hc] at hrun
          simp only at hrun
          rcases hloop : recvLoop
            (fun resp : CompletionResponse => resp.Choices.head?.map (·.Text)) f
            stream [] h with ⟨res, h2⟩
          rw [hloop] at hrun
          cases res with
          | error err => simp at hrun
          | ok output =>
            simp only [Option.some.injEq, Prod.mk.injEq, Except.ok.injEq] at hrun
            rw [← hrun.1]
            rfl
  · intro p ps resp choice choices hopt hc hch
    unfold LLM.Generate
    simp only [hopt, hc, hch]
  · intro prompt
    unfold LLM.Call
    cases hg : o.Generate [prompt] options h with
    | none => exact absurd hg (hcons prompt [])
    | some r =>
      obtain ⟨res, h1⟩ := r
      cases res with
      | error err => simp
      | ok gens =>
        cases gens <;> simp
  · intro prompt generation h1 hg
    unfold LLM.Call
    rw [hg]

/-- C24 at a concrete provider: two prompts, one generation with the text of the first
choice, and the same text from `Call`. -/
theorem Generate_first_prompt_only_witness :
    sampleLLM.Generate ["first".toList, "second".toList] ([] : List (CallOption Nat)) ⟨0, []⟩
        = some (Except.ok [{ Text := "Hello".toList }], ⟨0, []⟩)
    ∧ sampleLLM.Call "first".toList ([] : List (CallOption Nat)) ⟨0, []⟩
        = some (Except.ok "Hello".toList, ⟨0, []⟩) :=
  ⟨(Generate_first_prompt_only sampleLLM ([] : List (CallOption Nat)) ⟨0, []⟩).2.2.2.2.1
      "first".toList ["second".toList] { Choices := [{ Text := "Hello".toList }] }
      { Text := "Hello".toList } [] rfl rfl rfl,
   (Generate_first_prompt_only sampleLLM ([] : List (CallOption Nat)) ⟨0, []⟩).2.2.2.2.2.2
      "first".toList { Text := "Hello".toList } ⟨0, []⟩ rfl⟩

/-! ### What the action pattern captures -/

theorem stripLit_some (text inp rest : Str) (h : stripLit text inp = some rest) :
    inp = text ++ rest := by
  unfold stripLit at h
  split at h
  · rename_i hp
    have hr : List.drop text.length inp = rest := by simpa using h
    have hpre := List.prefix_iff_eq_append.mp (List.isPrefixOf_iff_prefix.mp hp)
    rw [hr] at hpre
    exact hpre.symm
  · simp at h

/-- A result of a greedy `cls*` comes from the continuation behind a run of class members. -/
theorem starGreedy_split {β : Type} (cls : Char → Bool) (k : Str → Str → Option β) (r : β) :
    ∀ (inp acc : Str), starGreedy cls k acc inp = some r →
      ∃ ws rest, inp = ws ++ rest ∧ (∀ c ∈ ws, cls c = true) ∧ k (acc ++ ws) rest = some r
  | [], acc, h => ⟨[], [], rfl, by simp, by simpa [starGreedy] using h⟩
  | c :: cs, acc, h => by
    unfold starGreedy at h
    by_cases hc : cls c = true
    · rw [if_pos hc] at h
      cases hs : starGreedy cls k (acc ++ [c]) cs with
      | some r1 =>
        rw [hs] at h
        have hr : r1 = r := by simpa using h
        obtain ⟨ws, rest, hcs, hws, hk⟩ := starGreedy_split cls k r cs (acc ++ [c]) (hr ▸ hs)
        refine ⟨c :: ws, rest, by simp [hcs], ?_, by simpa using hk⟩
        intro x hx
        rcases List.mem_cons.mp hx with rfl | hx
        · exact hc
        · exact hws x hx
      | none =>
        rw [hs] at h
        exact ⟨[], c :: cs, rfl, by simp, by simpa using h⟩
    · rw [if_neg hc] at h
      exact ⟨[], c :: cs, rfl, by simp, by simpa using h⟩

theorem plusGreedy_split {β : Type} (cls : Char → Bool) (k : Str → Str → Option β) (r : β)
    (inp : Str) (h : plusGreedy cls k inp = some r) :
    ∃ g rest, inp = g ++ rest ∧ g ≠ [] ∧ (∀ c ∈ g, cls c = true) ∧ k g rest = some r := by
  cases inp with
  | nil => simp [plusGreedy] at h
  | cons c cs =>
    cases hc : cls c with
    | false => simp [plusGreedy, hc] at h
    | true =>
      have hstar : starGreedy cls k [c] cs = some r := by simpa [plusGreedy, hc] using h
      obtain ⟨ws, rest, hcs, hws, hk⟩ := starGreedy_split cls k r cs [c] hstar
      refine ⟨c :: ws, rest, by simp [hcs], by simp, ?_, by simpa using hk⟩
      intro x hx
      rcases List.mem_cons.mp hx with rfl | hx
      · exact hc
      · exact hws x hx

/-- A greedy `cls*` whose continuation always succeeds takes the longest run. -/
theorem starGreedy_last {β : Type} (cls : Char → Bool) (F : Str → β) :
    ∀ (inp acc : Str),
      starGreedy cls (fun g inp1 => some (F g, inp1)) acc inp
        = some (F (acc ++ inp.takeWhile cls), inp.dropWhile cls)
  | [], acc => by simp [starGreedy]
  | c :: cs, acc => by
    unfold starGreedy
    by_cases hc : cls c = true
    · rw [if_pos hc, starGreedy_last cls F cs (acc ++ [c])]
      simp [List.takeWhile_cons, List.dropWhile_cons, hc]
    · rw [if_neg hc]
      simp [List.takeWhile_cons, List.dropWhile_cons, hc]

/-- The last group of a pattern takes the rest of its line. -/
theorem matchItems_last_group (cls : Char → Bool) (groups : List Str) (inp : Str)
    (gs : List Str) (rest : Str)
    (h : matchItems [ReItem.groupPlus cls] groups inp = some (gs, rest)) :
    ∃ g, inp = g ++ rest ∧ gs = groups ++ [g] ∧ g ≠ [] ∧ (∀ c ∈ g, cls c = true)
      ∧ ∀ c, rest.head? = some c → cls c = false := by
  have hk : (fun (g : Str) (inp1 : Str) => matchItems [] (groups ++ [g]) inp1)
      = fun g inp1 => some (groups ++ [g], inp1) := by
    funext g inp1
    simp [matchItems]
  rw [matchItems, hk] at h
  cases inp with
  | nil => simp [plusGreedy] at h
  | cons c cs =>
    cases hc : cls c with
    | false => simp [plusGreedy, hc] at h
    | true =>
      have hstar : starGreedy cls (fun g inp1 => some (groups ++ [g], inp1)) [c] cs
          = some (gs, rest) := by simpa [plusGreedy, hc] using h
      rw [starGreedy_last cls (fun g => groups ++ [g]) cs [c]] at hstar
      simp only [Option.some.injEq, Prod.mk.injEq] at hstar
      obtain ⟨hgs, hrest⟩ := hstar
      refine ⟨c :: cs.takeWhile cls, ?_, ?_, by simp, ?_, ?_⟩
      · rw [← hrest]
        simp
      · rw [← hgs]
        simp
      · intro x hx
        rcases List.mem_cons.mp hx with rfl | hx
        · exact hc
        · exact List.mem_takeWhile_imp hx
      · intro x hx
        rw [← hrest] at hx
        have := List.head?_dropWhile_not cls cs
        rw [hx] at this
        simpa using this

theorem matchItems_lit_split (text : Str) (re : List ReItem) (groups : List Str) (inp : Str)
    (r : List Str × Str) (h : matchItems (ReItem.lit text :: re) groups inp = some r) :
    ∃ inp1, inp = text ++ inp1 ∧ matchItems re groups inp1 = some r := by
  rw [matchItems] at h
  cases h0 : stripLit text inp with
  | none => simp [h0] at h
  | some inp1 =>
    rw [h0] at h
    exact ⟨inp1, stripLit_some _ _ _ h0, h⟩

theorem matchItems_star_split (cls : Char → Bool) (re : List ReItem) (groups : List Str)
    (inp : Str) (r : List Str × Str)
    (h : matchItems (ReItem.star cls :: re) groups inp = some r) :
    ∃ ws inp1, inp = ws ++ inp1 ∧ (∀ c ∈ ws, cls c = true)
      ∧ matchItems re groups inp1 = some r := by
  rw [matchItems] at h
  obtain ⟨ws, inp1, hi, hws, hk⟩ := starGreedy_split cls _ _ inp [] h
  exact ⟨ws, inp1, hi, hws, hk⟩

theorem matchItems_group_split (cls : Char → Bool) (re : List ReItem) (groups : List Str)
    (inp : Str) (r : List Str × Str)
    (h : matchItems (ReItem.groupPlus cls :: re) groups inp = some r) :
    ∃ g inp1, inp = g ++ inp1 ∧ g ≠ [] ∧ (∀ c ∈ g, cls c = true)
      ∧ matchItems re (groups ++ [g]) inp1 = some r := by
  rw [matchItems] at h
  obtain ⟨g, inp1, hi, hg, hgd, hk⟩ := plusGreedy_split cls _ _ inp h
  exact ⟨g, inp1, hi, hg, hgd, hk⟩

/-- The shape of every text that the action pattern matches at its start. -/
theorem matchItems_actionRe_split (s : Str) (gs : List Str) (rest : Str)
    (h : matchItems actionRe [] s = some (gs, rest)) :
    ∃ w1 g1 w2 w3 g2,
      s = "Action:".toList ++ (w1 ++ (g1 ++ (w2 ++ ("Action Input:".toList
            ++ (w3 ++ (g2 ++ rest))))))
      ∧ gs = [g1, g2]
      ∧ (∀ c ∈ w1, reSpace c = true) ∧ g1 ≠ [] ∧ (∀ c ∈ g1, reDot c = true)
      ∧ (∀ c ∈ w2, reSpace c = true) ∧ (∀ c ∈ w3, reSpace c = true)
      ∧ g2 ≠ [] ∧ (∀ c ∈ g2, reDot c = true)
      ∧ ∀ c, rest.head? = some c → reDot c = false := by
  obtain ⟨inp1, hs, h⟩ := matchItems_lit_split _ _ _ _ _ h
  obtain ⟨w1, inp2, hi1, hw1, h⟩ := matchItems_star_split _ _ _ _ _ h
  obtain ⟨g1, inp3, hi2, hg1, hg1d, h⟩ := matchItems_group_split _ _ _ _ _ h
  obtain ⟨w2, inp4, hi3, hw2, h⟩ := matchItems_star_split _ _ _ _ _ h
  obtain ⟨inp5, hi4, h⟩ := matchItems_lit_split _ _ _ _ _ h
  obtain ⟨w3, inp6, hi5, hw3, h⟩ := matchItems_star_split _ _ _ _ _ h
  obtain ⟨g2, hi6, hgs, hg2, hg2d, hrest⟩ := matchItems_last_group reDot _ inp6 gs rest h
  refine ⟨w1, g1, w2, w3, g2, ?_, ?_, hw1, hg1, hg1d, hw2, hw3, hg2, hg2d, hrest⟩
  · rw [hs, hi1, hi2, hi3, hi4, hi5, hi6]
  · rw [hgs]
    rfl

/-- A match found by `FindStringSubmatch` is a match of the items at the start of a suffix
of the text. -/
theorem FindStringSubmatch_split (re : List ReItem) :
    ∀ (output : Str) (ms : List Str), FindStringSubmatch re output = some ms →
      ∃ before s gs rest, output = before ++ s ∧ matchItems re [] s = some (gs, rest)
        ∧ ms = s.take (s.length - rest.length) :: gs
  | [], ms, h => by
    unfold FindStringSubmatch at h
    cases hm : matchItems re [] [] with
    | none => simp [hm] at h
    | some r =>
      obtain ⟨gs, rest⟩ := r
      have hms : ms = [] :: gs := by simpa [hm] using h.symm
      exact ⟨[], [], gs, rest, rfl, hm, by simp [hms]⟩
  | c :: cs, ms, h => by
    unfold FindStringSubmatch at h
    cases hm : matchItems re [] (c :: cs) with
    | none =>
      rw [hm] at h
      obtain ⟨before, s, gs, rest, hout, hmatch, hms⟩ := FindStringSubmatch_split re cs ms h
      exact ⟨c :: before, s, gs, rest, by simp [hout], hmatch, hms⟩
    | some r =>
      obtain ⟨gs, rest⟩ := r
      have hms : ms = (c :: cs).take ((c :: cs).length - rest.length) :: gs := by
        simpa [hm] using h.symm
      exact ⟨[], c :: cs, gs, rest, rfl, hm, hms⟩

theorem TrimSpace_subset (s : Str) : ∀ c ∈ TrimSpace s, c ∈ s := by
  intro c hc
  unfold TrimSpace at hc
  exact List.dropWhile_subset _ ((List.rdropWhile_prefix unicodeIsSpace _).subset hc)

theorem TrimSpace_head (s : Str) (c : Char) (h : (TrimSpace s).head? = some c) :
    unicodeIsSpace c = false := by
  unfold TrimSpace at h
  obtain ⟨t, ht⟩ := List.rdropWhile_prefix unicodeIsSpace
    (List.dropWhile unicodeIsSpace s)
  have hhead : (List.dropWhile unicodeIsSpace s).head? = some c := by
    rw [← ht]
    cases hr : List.rdropWhile unicodeIsSpace (List.dropWhile unicodeIsSpace s) with
    | nil => rw [hr] at h; simp at h
    | cons x xs =>
      rw [hr] at h
      simpa using h
  have := List.head?_dropWhile_not unicodeIsSpace s
  rw [hhead] at this
  simpa using this

theorem TrimSpace_getLast (s : Str) (c : Char) (h : (TrimSpace s).getLast? = some c) :
    unicodeIsSpace c = false := by
  unfold TrimSpace at h
  have hne : List.rdropWhile unicodeIsSpace (List.dropWhile unicodeIsSpace s) ≠ [] := by
    intro hnil
    rw [hnil] at h
    simp at h
  have hlast := List.rdropWhile_last_not unicodeIsSpace (List.dropWhile unicodeIsSpace s) hne
  rw [List.getLast?_eq_getLast _ hne] at h
  have hc : (List.rdropWhile unicodeIsSpace (List.dropWhile unicodeIsSpace s)).getLast hne = c :=
    Option.some.inj h
  rw [hc] at hlast
  simpa using hlast

theorem takeWhile_append_of_exists_neg (p : Char → Bool) (l2 : Str) :
    ∀ l1 : Str, (∃ c ∈ l1, p c = false) → List.takeWhile p (l1 ++ l2) = List.takeWhile p l1
  | [], h => by simp at h
  | x :: xs, h => by
    cases hx : p x with
    | false => simp [List.takeWhile_cons, hx]
    | true =>
      have h2 : ∃ c ∈ xs, p c = false := by
        obtain ⟨c, hc, hp⟩ := h
        rcases List.mem_cons.mp hc with rfl | hc
        · simp [hx] at hp
        · exact ⟨c, hc, hp⟩
      simp [List.takeWhile_cons, hx, takeWhile_append_of_exists_neg p l2 xs h2]

/-- The first line of white space, a rest of a line and what follows the line: when the
first line holds a code point outside `\s`, it is the white space and the rest of the line. -/
theorem first_line_of_match (w3 g2 rest : Str) (hw3 : ∀ c ∈ w3, reSpace c = true)
    (hg2 : ∀ c ∈ g2, reDot c = true) (hrest : ∀ c, rest.head? = some c → reDot c = false)
    (hline : ∃ c ∈ List.takeWhile reDot (w3 ++ (g2 ++ rest)), reSpace c = false) :
    List.takeWhile reDot (w3 ++ (g2 ++ rest)) = w3 ++ g2 := by
  by_cases hall : ∀ c ∈ w3, reDot c = true
  · have hr : List.takeWhile reDot rest = [] := by
      cases rest with
      | nil => rfl
      | cons x xs =>
        have hx : reDot x = false := hrest x rfl
        simp [List.takeWhile_cons, hx]
    rw [List.takeWhile_append_of_pos hall, List.takeWhile_append_of_pos hg2, hr,
      List.append_nil]
  · have hex : ∃ c ∈ w3, reDot c = false := by
      by_contra hcon
      apply hall
      intro c hc
      cases hd : reDot c with
      | true => rfl
      | false => exact absurd ⟨c, hc, hd⟩ hcon
    rw [takeWhile_append_of_exists_neg reDot _ w3 hex] at hline
    obtain ⟨c, hc, hsp⟩ := hline
    have hcw : c ∈ w3 := (List.takeWhile_prefix reDot).subset hc
    rw [hw3 c hcw] at hsp
    exact absurd hsp (by decide)

/-- C22, as the code has it: every action that `parseOutput` yields has a `Tool` and a
`ToolInput` without newline and without white space at either end, and its `Log` is the
output. The output holds an `Action Input:` followed by white space `w3`, a non-empty
rest of a line `g2` that reaches the line end, and the remaining text, and `ToolInput` is
`g2` trimmed. When the first line of the text after that `Action Input:` holds a code
point outside the class `\s`, `ToolInput` is that first line trimmed, whatever follows. -/
theorem parseOutput_action_fields {σ : Type} (a : OneShotZeroAgent σ) (output : Str)
    (act : AgentAction) (h : act ∈ (a.parseOutput output).1) :
    '\n' ∉ act.Tool ∧ '\n' ∉ act.ToolInput
    ∧ (∀ c, act.Tool.head? = some c → unicodeIsSpace c = false)
    ∧ (∀ c, act.Tool.getLast? = some c → unicodeIsSpace c = false)
    ∧ (∀ c, act.ToolInput.head? = some c → unicodeIsSpace c = false)
    ∧ (∀ c, act.ToolInput.getLast? = some c → unicodeIsSpace c = false)
    ∧ act.Log = output
    ∧ ∃ pre w3 g2 rest,
        output = pre ++ "Action Input:".toList ++ (w3 ++ (g2 ++ rest))
        ∧ (∀ c ∈ w3, reSpace c = true)
        ∧ g2 ≠ [] ∧ '\n' ∉ g2
        ∧ (rest = [] ∨ rest.head? = some '\n')
        ∧ act.ToolInput = TrimSpace g2
        ∧ ((∃ c ∈ List.takeWhile reDot (w3 ++ (g2 ++ rest)), reSpace c = false) →
            act.ToolInput = TrimSpace (List.takeWhile reDot (w3 ++ (g2 ++ rest)))) := by
  have hnl : ∀ g : Str, (∀ c ∈ g, reDot c = true) → '\n' ∉ g := by
    intro g hg hmem
    have := hg '\n' hmem
    simp [reDot] at this
  unfold OneShotZeroAgent.parseOutput at h
  split at h
  · simp at h
  · cases hf : FindStringSubmatch actionRe output with
    | none => simp [hf] at h
    | some ms =>
      rw [hf] at h
      have hact : act = { Tool := TrimSpace (ms.getD 1 []), ToolInput := TrimSpace (ms.getD 2 []),
                          Log := output } := by simpa using h
      obtain ⟨before, s, gs, rest, hout, hmatch, hms⟩ :=
        FindStringSubmatch_split actionRe output ms hf
      obtain ⟨w1, g1, w2, w3, g2, hs, hgs, hw1, hg1, hg1d, hw2, hw3, hg2, hg2d, hrest⟩ :=
        matchItems_actionRe_split s gs rest hmatch
      have h1 : ms.getD 1 [] = g1 := by rw [hms, hgs]; rfl
      have h2 : ms.getD 2 [] = g2 := by rw [hms, hgs]; rfl
      rw [h1, h2] at hact
      have htool : act.Tool = TrimSpace g1 := by rw [hact]
      have hinput : act.ToolInput = TrimSpace g2 := by rw [hact]
      have hlog : act.Log = output := by rw [hact]
      refine ⟨?_, ?_, ?_, ?_, ?_, ?_, hlog, ?_⟩
      · rw [htool]
        exact fun hmem => hnl g1 hg1d (TrimSpace_subset g1 _ hmem)
      · rw [hinput]
        exact fun hmem => hnl g2 hg2d (TrimSpace_subset g2 _ hmem)
      · rw [htool]
        exact TrimSpace_head g1
      · rw [htool]
        exact TrimSpace_getLast g1
      · rw [hinput]
        exact TrimSpace_head g2
      · rw [hinput]
        exact TrimSpace_getLast g2
      · refine ⟨before ++ ("Action:".toList ++ (w1 ++ (g1 ++ w2))), w3, g2, rest, ?_, hw3, hg2,
          hnl g2 hg2d, ?_, hinput, ?_⟩
        · rw [hout, hs]
          simp only [List.append_assoc]
        · cases rest with
          | nil => exact Or.inl rfl
          | cons x xs =>
            right
            have hx : reDot x = false := hrest x rfl
            have hxe : x = '\n' := by simpa [reDot] using hx
            rw [hxe]
            rfl
        · intro hline
          rw [first_line_of_match w3 g2 rest hw3 hg2d hrest hline, hinput,
            TrimSpace_drop_reSpace w3 g2 hw3]

/-- C22 at a concrete output: the input spans two lines, the first one holding text. -/
theorem parseOutput_action_fields_witness :
    '\n' ∉ "search".toList ∧ '\n' ∉ "weather".toList
    ∧ (∀ c, "search".toList.head? = some c → unicodeIsSpace c = false)
    ∧ (∀ c, "search".toList.getLast? = some c → unicodeIsSpace c = false)
    ∧ (∀ c, "weather".toList.head? = some c → unicodeIsSpace c = false)
    ∧ (∀ c, "weather".toList.getLast? = some c → unicodeIsSpace c = false)
    ∧ "Action: search\nAction Input: weather \nin Paris".toList
        = "Action: search\nAction Input: weather \nin Paris".toList
    ∧ ∃ pre w3 g2 rest,
        "Action: search\nAction Input: weather \nin Paris".toList
          = pre ++ "Action Input:".toList ++ (w3 ++ (g2 ++ rest))
        ∧ (∀ c ∈ w3, reSpace c = true)
        ∧ g2 ≠ [] ∧ '\n' ∉ g2
        ∧ (rest = [] ∨ rest.head? = some '\n')
        ∧ "weather".toList = TrimSpace g2
        ∧ ((∃ c ∈ List.takeWhile reDot (w3 ++ (g2 ++ rest)), reSpace c = false) →
            "weather".toList = TrimSpace (List.takeWhile reDot (w3 ++ (g2 ++ rest)))) :=
  parseOutput_action_fields sampleAgent
    "Action: search\nAction Input: weather \nin Paris".toList
    { Tool := "search".toList, ToolInput := "weather".toList,
      Log := "Action: search\nAction Input: weather \nin Paris".toList }
    (by decide)

/-- C22 as stated fails: in this output `Action Input:` occurs once, the text after it
spans three lines, and its first line is empty; `ToolInput` is `weather`, the second
line, and not the trimmed first line, which is the empty string. -/
theorem parseOutput_blank_first_line_counterexample :
    sampleAgent.parseOutput "Action: search\nAction Input:\nweather\nin Paris".toList
        = ([{ Tool := "search".toList, ToolInput := "weather".toList,
              Log := "Action: search\nAction Input:\nweather\nin Paris".toList }], none, none)
    ∧ "Action: search\nAction Input:\nweather\nin Paris".toList
        = "Action: search\n".toList ++ "Action Input:".toList ++ "\nweather\nin Paris".toList
    ∧ Count "Action: search\nAction Input:\nweather\nin Paris".toList "Action Input:".toList = 1
    ∧ List.takeWhile reDot "\nweather\nin Paris".toList = []
    ∧ TrimSpace (List.takeWhile reDot "\nweather\nin Paris".toList) ≠ "weather".toList := by
  refine ⟨by decide, by decide, by decide, by decide, by decide⟩

end LangChainGo
